import Mathlib

/-!
Verification development for the AOE2 stat-parser metrics engine.

The definitions below are a shallow embedding of `src/aoe2stat/costs.py`,
`src/aoe2stat/core.py` and `src/aoe2stat/metrics.py`.  Python floats are
modelled as exact rationals (`ℚ`); Python dicts as association lists in
insertion order; the "empty DataFrame" no-data marker as `Option.none`;
`ValueError` / `KeyError` as `Except.error`.
-/

deriving instance DecidableEq for Except

namespace Aoe2Stat

/-- Python `max(a, b)` on floats (ties keep the first argument). -/
def pyMax (a b : ℚ) : ℚ := if a < b then b else a

/-- Model of the Python values that occur inside action payloads: `None`,
ints, strings, dicts, and objects carrying named attributes. -/
inductive PyVal where
  | pnone
  | pint (n : ℤ)
  | pstr (s : String)
  | pdict (entries : List (String × PyVal))
  | pobj (attrs : List (String × PyVal))

/-- Python `d.get(k)` on a dict: the first entry with the key, else `None`. -/
def dictGet (es : List (String × PyVal)) (k : String) : PyVal :=
  match es.find? (fun e => e.1 == k) with
  | some e => e.2
  | none => .pnone

/-- Python `d.get(k, dflt)`. -/
def dictGetD (es : List (String × PyVal)) (k : String) (dflt : PyVal) : PyVal :=
  match es.find? (fun e => e.1 == k) with
  | some e => e.2
  | none => dflt

/-- Python `getattr(v, a, None)`: attribute lookup, `None` for non-objects. -/
def getattrV (v : PyVal) (a : String) : PyVal :=
  match v with
  | .pobj attrs => dictGet attrs a
  | _ => .pnone

/-- Python truthiness of a value. -/
def truthy : PyVal → Bool
  | .pnone => false
  | .pint n => n != 0
  | .pstr s => s != ""
  | .pdict es => !es.isEmpty
  | .pobj _ => true

/-- Python `a or b` (returns `a` when truthy, else `b`). -/
def pyOr (a b : PyVal) : PyVal := if truthy a then a else b

/-- Python `str(v)`.  For dicts and objects Python produces a repr text;
no theorem below depends on that text, so it is abstracted to a fixed tag. -/
def pyStr : PyVal → String
  | .pstr s => s
  | .pint n => toString n
  | .pnone => "None"
  | .pdict _ => "<dict>"
  | .pobj _ => "<object>"

/-- Python `int(v)` where it succeeds: `none` models the `TypeError` /
`ValueError` branch (caught by the caller in `payload_count`). -/
def pyIntOpt : PyVal → Option ℤ
  | .pint n => some n
  | .pstr s => s.toInt?
  | _ => none

/-- Total variant of `int(v)` used where the source does not catch the
exception; Python would raise on the `none` cases, which no theorem below
exercises, so they are mapped to 0. -/
def pyIntTotal (v : PyVal) : ℤ := (pyIntOpt v).getD 0

/-- Whitespace characters stripped by Python `str.strip()`. -/
def isPySpace (c : Char) : Bool :=
  c == ' ' || c == '\t' || c == '\n' || c == '\r' || c == '\x0b' || c == '\x0c'

/-- ASCII lower-casing of one character (the cost-table keys are ASCII). -/
def charLower (c : Char) : Char :=
  if 'A' ≤ c && c ≤ 'Z' then Char.ofNat (c.toNat + 32) else c

/-- Python `s.lower()` restricted to ASCII case folding. -/
def pyLower (s : String) : String := String.mk (s.toList.map charLower)

/-- Python `s.strip()` on a character list. -/
def pyStripList (l : List Char) : List Char :=
  ((l.dropWhile isPySpace).reverse.dropWhile isPySpace).reverse

/-- Python `s.strip()`. -/
def pyStrip (s : String) : String := String.mk (pyStripList s.toList)

/-- The normalisation `_norm` of `costs.py`: `name.strip().lower()`. -/
def pyNorm (s : String) : String := pyLower (pyStrip s)

/-- Does `hay` start with `needle`? -/
def listStartsWith : List Char → List Char → Bool
  | [], _ => true
  | _ :: _, [] => false
  | a :: as, b :: bs => a == b && listStartsWith as bs

/-- Python substring containment `needle in hay` on character lists. -/
def listHasSeq (needle : List Char) : List Char → Bool
  | [] => listStartsWith needle []
  | c :: t => listStartsWith needle (c :: t) || listHasSeq needle t

/-- Python substring containment `needle in hay` on strings. -/
def strHasSeq (needle hay : String) : Bool := listHasSeq needle.toList hay.toList

/-- Regex word character (`\w` for the ASCII table keys). -/
def isWordChar (c : Char) : Bool := c.isAlphanum || c == '_'

/-- Is the character at index `i` a word character (false out of range)? -/
def wordCharAt (hay : List Char) (i : ℕ) : Bool :=
  match hay.get? i with
  | some c => isWordChar c
  | none => false

/-- Regex `\b` at position `i` of `hay`: the two sides differ in word-ness. -/
def boundaryAt (hay : List Char) (i : ℕ) : Bool :=
  (if i = 0 then false else wordCharAt hay (i - 1)) != wordCharAt hay i

/-- Search for the regex `\b<needle-escaped>\b` inside `hay`: a literal
occurrence of `needle` flanked by word boundaries. -/
def wordSeqSearch (needle hay : List Char) : Bool :=
  (List.range (hay.length + 1)).any (fun i =>
    listStartsWith needle (hay.drop i) && boundaryAt hay i &&
      boundaryAt hay (i + needle.length))

/-- Resource cost 4-tuple `(food, wood, gold, stone)` from `costs.py`. -/
abbrev ResourceCost := ℤ × ℤ × ℤ × ℤ

/-- The `_UNIT_COSTS` table of `costs.py`, in source (dict insertion) order. -/
def UNIT_COSTS : List (String × ResourceCost) :=
  [ ("villager", (50, 0, 0, 0)),
    ("militia", (60, 0, 20, 0)),
    ("man-at-arms", (60, 0, 20, 0)),
    ("spearman", (35, 25, 0, 0)),
    ("pikeman", (35, 25, 0, 0)),
    ("halberdier", (35, 25, 0, 0)),
    ("archer", (0, 25, 45, 0)),
    ("crossbowman", (0, 25, 45, 0)),
    ("skirmisher", (25, 35, 0, 0)),
    ("elite skirmisher", (25, 35, 0, 0)),
    ("hand cannoneer", (45, 0, 50, 0)),
    ("cavalry archer", (0, 40, 60, 0)),
    ("scout", (80, 0, 0, 0)),
    ("scout cavalry", (80, 0, 0, 0)),
    ("light cavalry", (80, 0, 0, 0)),
    ("hussar", (80, 0, 0, 0)),
    ("knight", (60, 0, 75, 0)),
    ("cavalier", (60, 0, 75, 0)),
    ("paladin", (60, 0, 75, 0)),
    ("camel", (55, 0, 60, 0)),
    ("camel rider", (55, 0, 60, 0)),
    ("eagle", (20, 0, 50, 0)),
    ("eagle scout", (20, 0, 50, 0)),
    ("eagle warrior", (20, 0, 50, 0)),
    ("battering ram", (0, 160, 75, 0)),
    ("mangonel", (0, 160, 135, 0)),
    ("onager", (0, 160, 135, 0)),
    ("scorpion", (0, 75, 75, 0)),
    ("siege ram", (0, 0, 0, 0)) ]

/-- The `_BUILDING_COSTS` table of `costs.py`. -/
def BUILDING_COSTS : List (String × ResourceCost) :=
  [ ("house", (0, 25, 0, 0)),
    ("lumber camp", (0, 100, 0, 0)),
    ("mill", (0, 100, 0, 0)),
    ("mining camp", (0, 100, 0, 0)),
    ("barracks", (0, 175, 0, 0)),
    ("archery range", (0, 175, 0, 0)),
    ("stable", (0, 175, 0, 0)),
    ("blacksmith", (0, 150, 0, 0)),
    ("market", (0, 175, 0, 0)),
    ("monastery", (0, 175, 0, 0)),
    ("siege workshop", (0, 200, 0, 0)),
    ("university", (0, 200, 0, 0)),
    ("town center", (0, 275, 0, 100)),
    ("watch tower", (0, 25, 0, 125)),
    ("guard tower", (0, 25, 0, 125)),
    ("keep", (0, 25, 0, 125)),
    ("castle", (0, 0, 0, 650)) ]

/-- The `_TECH_COSTS` table of `costs.py`. -/
def TECH_COSTS : List (String × ResourceCost) :=
  [ ("loom", (0, 0, 50, 0)),
    ("double-bit axe", (0, 100, 0, 0)),
    ("bow saw", (100, 150, 0, 0)),
    ("two-man saw", (300, 300, 0, 0)),
    ("horse collar", (75, 75, 0, 0)),
    ("heavy plow", (125, 125, 0, 0)),
    ("crop rotation", (250, 250, 0, 0)),
    ("wheelbarrow", (175, 50, 0, 0)),
    ("hand cart", (300, 200, 0, 0)),
    ("gold mining", (100, 75, 0, 0)),
    ("gold shaft mining", (200, 150, 0, 0)),
    ("stone mining", (100, 75, 0, 0)),
    ("stone shaft mining", (200, 150, 0, 0)),
    ("town watch", (75, 0, 0, 0)),
    ("town patrol", (300, 0, 100, 0)),
    ("fletching", (50, 0, 100, 0)),
    ("bodkin arrow", (200, 0, 100, 0)),
    ("bracer", (300, 0, 200, 0)),
    ("forging", (150, 0, 0, 0)),
    ("iron casting", (220, 0, 120, 0)),
    ("blast furnace", (275, 0, 225, 0)),
    ("scale mail armor", (100, 0, 0, 0)),
    ("chain mail armor", (200, 0, 0, 0)),
    ("plate mail armor", (300, 0, 0, 0)),
    ("scale barding armor", (150, 0, 0, 0)),
    ("chain barding armor", (250, 0, 0, 0)),
    ("plate barding armor", (350, 0, 0, 0)),
    ("leather archer armor", (100, 0, 0, 0)),
    ("chain archer armor", (150, 0, 0, 0)),
    ("ring archer armor", (250, 0, 0, 0)) ]

/-- The `_lookup` resolution of `costs.py`: exact normalised match, then
substring containment either direction (first table entry wins), then a
whole-word regex search of the key inside the query. -/
def lookupCost (name : String) (table : List (String × ResourceCost)) :
    Option ResourceCost :=
  let n := pyNorm name
  match table.find? (fun kv => kv.1 == n) with
  | some kv => some kv.2
  | none =>
    match table.find? (fun kv =>
        kv.1 == n || strHasSeq kv.1 n || strHasSeq n kv.1) with
    | some kv => some kv.2
    | none =>
      match table.find? (fun kv => wordSeqSearch kv.1.toList n.toList) with
      | some kv => some kv.2
      | none => none

/-- Embedding of `unit_cost` from `costs.py`. -/
def unit_cost (name : String) : Option ResourceCost := lookupCost name UNIT_COSTS

/-- Embedding of `building_cost` from `costs.py`. -/
def building_cost (name : String) : Option ResourceCost :=
  lookupCost name BUILDING_COSTS

/-- Embedding of `tech_cost` from `costs.py`. -/
def tech_cost (name : String) : Option ResourceCost := lookupCost name TECH_COSTS

/-- Player record: only the stable `number` identifier is read by the engine. -/
structure Player where
  number : ℤ

/-- Action record as consumed by `metrics.py`: `timestamp.total_seconds()` is
kept as an exact rational, `typeName` is `getattr(act.type, 'name', '')`, and
`payload` is `getattr(act, 'payload', {}) or {}`. -/
structure Action where
  timestamp : ℚ
  player : Option Player
  typeName : String
  payload : List (String × PyVal)

/-- Match record: players, action stream and total duration. -/
structure GameMatch where
  players : List Player
  actions : List Action
  duration : ℚ

/-- The `_is_prod_event` classifier of `metrics.py`. -/
def isProdEvent (tname : String) : Bool :=
  strHasSeq "TRAIN" tname || strHasSeq "CREATE" tname ||
    strHasSeq "QUEUE" tname || tname == "ORDER"

/-- The `payload_unit_name` helper of `core.py`: first truthy candidate among
the nested unit object's `name` / `unit_name` attributes, the nested dict's
`name` key, then top-level `unit_name`, `object_name`, `item`. -/
def payloadUnitName (payload : List (String × PyVal)) : PyVal :=
  let unitObj := pyOr (dictGet payload "unit") (.pdict [])
  pyOr (getattrV unitObj "name")
    (pyOr (getattrV unitObj "unit_name")
      (pyOr (match unitObj with | .pdict es => dictGet es "name" | _ => .pnone)
        (pyOr (dictGet payload "unit_name")
          (pyOr (dictGet payload "object_name") (dictGet payload "item")))))

mutual

/-- The `_payload_strings` generator of `core.py`: depth-bounded traversal of
nested dict values, yielding string-valued `name`/`unit_name` attributes and
raw strings.  Stops (yields nothing) beyond depth 2. -/
def payloadStringsV (v : PyVal) (depth : ℕ) : List String :=
  if depth > 2 then []
  else
    match v with
    | .pdict es => payloadStringsEntries es depth
    | v' =>
      (match pyOr (getattrV v' "name") (getattrV v' "unit_name") with
        | .pstr s => [s]
        | _ => []) ++
      (match v' with | .pstr s => [s] | _ => [])

/-- Traversal of the values of a dict, one level deeper. -/
def payloadStringsEntries (es : List (String × PyVal)) (depth : ℕ) : List String :=
  match es with
  | [] => []
  | e :: rest => payloadStringsV e.2 (depth + 1) ++ payloadStringsEntries rest depth

end

/-- The `payload_matches` helper of `core.py`: the extracted unit name (when
truthy) matches the pattern, or any string reached by `_payload_strings`
does.  The compiled regex is abstracted as a `String → Bool` predicate. -/
def payloadMatches (payload : List (String × PyVal)) (pattern : String → Bool) :
    Bool :=
  let name := payloadUnitName payload
  (truthy name && pattern (pyStr name)) ||
    (payloadStringsV (.pdict payload) 0).any (fun s => pattern s)

/-- Inner loop of `payload_count`: first key whose value converts to a
positive int wins; conversion failures are swallowed. -/
def payloadCountLoop (payload : List (String × PyVal)) : List String → ℤ
  | [] => 1
  | k :: ks =>
    match pyIntOpt (dictGet payload k) with
    | some n => if n > 0 then n else payloadCountLoop payload ks
    | none => payloadCountLoop payload ks

/-- The `payload_count` helper of `core.py`. -/
def payloadCount (payload : List (String × PyVal)) : ℤ :=
  payloadCountLoop payload ["count", "amount", "quantity", "num", "n"]

/-- Helper for `dedupNums`, carrying the set of keys already emitted. -/
def dedupNumsGo (seen : List ℤ) : List ℤ → List ℤ
  | [] => []
  | x :: xs =>
    if seen.contains x then dedupNumsGo seen xs
    else x :: dedupNumsGo (x :: seen) xs

/-- Keys of a Python dict comprehension over players: first-occurrence order,
duplicates collapsed. -/
def dedupNums (l : List ℤ) : List ℤ := dedupNumsGo [] l

/-- The dict `{p.number: v for p in match.players}`. -/
def initMap (players : List Player) (v : α) : List (ℤ × α) :=
  (dedupNums (players.map (fun p => p.number))).map (fun k => (k, v))

/-- Dict lookup `d[k]` as an option (`none` models `KeyError`). -/
def mapGet? (d : List (ℤ × α)) (k : ℤ) : Option α :=
  (d.find? (fun e => e.1 == k)).map (fun e => e.2)

/-- Dict update `d[k] = v` for a key already present. -/
def mapSet (d : List (ℤ × α)) (k : ℤ) (v : α) : List (ℤ × α) :=
  d.map (fun e => if e.1 == k then (e.1, v) else e)

/-- Loop of `villager_counts`: sums `payload_count` per attributed player on
matching production events; a missing key raises `KeyError`. -/
def villagerCountsGo (pattern : String → Bool) (counts : List (ℤ × ℤ)) :
    List Action → Except String (List (ℤ × ℤ))
  | [] => .ok counts
  | act :: rest =>
    if !isProdEvent act.typeName then villagerCountsGo pattern counts rest
    else if !payloadMatches act.payload pattern then
      villagerCountsGo pattern counts rest
    else
      match act.player with
      | none => villagerCountsGo pattern counts rest
      | some p =>
        match mapGet? counts p.number with
        | none => .error "KeyError"
        | some c =>
          villagerCountsGo pattern
            (mapSet counts p.number (c + payloadCount act.payload)) rest

/-- Embedding of `villager_counts` from `metrics.py`. -/
def villager_counts (m : GameMatch) (pattern : String → Bool) :
    Except String (List (ℤ × ℤ)) :=
  villagerCountsGo pattern (initMap m.players 0) m.actions

/-- State of the `tc_idle_time` fold: idle accumulator and last matched
timestamp per player. -/
structure IdleState where
  idle : List (ℤ × ℚ)
  last : List (ℤ × Option ℚ)

/-- Loop of `tc_idle_time`: on each matching attributed production event, if a
previous event exists and the gap exceeds `gapThr`, add
`max 0 (gap - base)`; always update the last timestamp. -/
def tcIdleGo (pattern : String → Bool) (base gapThr : ℚ) (st : IdleState) :
    List Action → Except String IdleState
  | [] => .ok st
  | act :: rest =>
    if !isProdEvent act.typeName then tcIdleGo pattern base gapThr st rest
    else if !payloadMatches act.payload pattern then
      tcIdleGo pattern base gapThr st rest
    else
      match act.player with
      | none => tcIdleGo pattern base gapThr st rest
      | some p =>
        match mapGet? st.last p.number with
        | none => .error "KeyError"
        | some lastv =>
          let t := act.timestamp
          match lastv with
          | none =>
            tcIdleGo pattern base gapThr
              ⟨st.idle, mapSet st.last p.number (some t)⟩ rest
          | some lt =>
            if t - lt > gapThr then
              match mapGet? st.idle p.number with
              | none => .error "KeyError"
              | some iv =>
                tcIdleGo pattern base gapThr
                  ⟨mapSet st.idle p.number (iv + pyMax 0 (t - lt - base)),
                    mapSet st.last p.number (some t)⟩ rest
            else
              tcIdleGo pattern base gapThr
                ⟨st.idle, mapSet st.last p.number (some t)⟩ rest

/-- Embedding of `tc_idle_time` from `metrics.py` (defaults
`base_prod_time = 25.0`, `gap_threshold = 27.0` are passed explicitly). -/
def tc_idle_time (m : GameMatch) (pattern : String → Bool) (base gapThr : ℚ) :
    Except String (List (ℤ × ℚ)) :=
  (tcIdleGo pattern base gapThr
      ⟨initMap m.players 0, initMap m.players none⟩ m.actions).map
    (fun st => st.idle)

/-- Python `max` of a list (callers guarantee non-emptiness; `0` default). -/
def maxList : List ℚ → ℚ
  | [] => 0
  | x :: xs => xs.foldl (fun a b => if a < b then b else a) x

/-- Number of samples of `np.arange(0, stop, step)` for a positive step:
`⌈stop / step⌉` clamped at zero (numpy documents this count). -/
def arangeCount (stop : ℚ) (step : ℕ) : ℕ := (⌈stop / (step : ℚ)⌉).toNat

/-- Number of bin edges `np.arange(0, max_t + window_sec, window_sec)`. -/
def binEdgeCount (maxT : ℚ) (w : ℕ) : ℕ := arangeCount (maxT + w) w

/-- Number of histogram windows: one fewer than the edge count. -/
def numWindows (maxT : ℚ) (w : ℕ) : ℕ := binEdgeCount maxT w - 1

/-- The shared index `bins[:-1]`: window starts `0, w, 2w, ...`. -/
def windowStarts (nW w : ℕ) : List ℚ := (List.range nW).map (fun i => (i * w : ℕ))

/-- Window index of a timestamp under `np.histogram` semantics with uniform
edges `0, w, ..., nW*w`: `⌊t / w⌋`, except that the last bin is closed so a
sample equal to the last edge lands in window `nW - 1`. -/
def binIdx (w nW : ℕ) (t : ℚ) : ℕ := min (⌊t / (w : ℚ)⌋).toNat (nW - 1)

/-- Does timestamp `t` fall into window `i`?  Samples outside
`[0, nW*w]` are discarded, as `np.histogram` discards out-of-range data. -/
def inBin (w nW i : ℕ) (t : ℚ) : Bool :=
  decide (0 ≤ t) && decide (t ≤ ((nW * w : ℕ) : ℚ)) && (binIdx w nW t == i)

/-- Weighted count of one histogram window. -/
def histWeight (w nW i : ℕ) (rows : List (ℚ × ℚ)) : ℚ :=
  (rows.filter (fun r => inBin w nW i r.1)).foldl (fun a r => a + r.2) 0

/-- The per-player `np.histogram(ts, bins=bins, weights=ws)` counts. -/
def histogram (w nW : ℕ) (rows : List (ℚ × ℚ)) : List ℚ :=
  (List.range nW).map (fun i => histWeight w nW i rows)

/-- Helper for `cumsum`. -/
def cumsumFrom (acc : ℚ) : List ℚ → List ℚ
  | [] => []
  | x :: xs => (acc + x) :: cumsumFrom (acc + x) xs

/-- `np.cumsum` on a list of rationals. -/
def cumsum (l : List ℚ) : List ℚ := cumsumFrom 0 l

/-- A returned time-series DataFrame: the shared window-start index and the
per-player columns in first-appearance order. -/
structure TSeries where
  index : List ℚ
  cols : List (ℤ × List ℚ)
deriving DecidableEq

/-- Shared tail of every windowing function of `metrics.py`: empty rows give
the `pd.DataFrame()` no-data marker; otherwise bins are derived from the
largest row timestamp and each player (in first-appearance order) gets the
histogram of their rows, post-processed by `post`. -/
def buildTS (w : ℕ) (rows : List (ℚ × ℤ × ℚ)) (post : List ℚ → List ℚ) :
    Option TSeries :=
  match rows with
  | [] => none
  | _ =>
    let maxT := maxList (rows.map (fun r => r.1))
    let nW := numWindows maxT w
    some
      { index := windowStarts nW w
        cols := (dedupNums (rows.map (fun r => r.2.1))).map (fun pid =>
          (pid, post (histogram w nW
            ((rows.filter (fun r => r.2.1 == pid)).map (fun r => (r.1, r.2.2)))))) }

/-- Rows of `apm_timeseries`: every player-attributed action, weight 1. -/
def apmRows (m : GameMatch) : List (ℚ × ℤ × ℚ) :=
  m.actions.filterMap (fun act =>
    act.player.map (fun p => (act.timestamp, p.number, (1 : ℚ))))

/-- Embedding of `apm_timeseries` from `metrics.py`: per-window action counts
scaled by `60 / window_sec`. -/
def apm_timeseries (m : GameMatch) (w : ℕ) : Option TSeries :=
  buildTS w (apmRows m) (fun col => col.map (fun c => c * 60 / (w : ℚ)))

/-- Rows of `unit_created_timeseries`: matching production events with an
attributed player, weighted by `payload_count`. -/
def unitCreatedRows (m : GameMatch) (pattern : String → Bool) :
    List (ℚ × ℤ × ℚ) :=
  m.actions.filterMap (fun act =>
    if !isProdEvent act.typeName then none
    else if !payloadMatches act.payload pattern then none
    else
      act.player.map (fun p =>
        (act.timestamp, p.number, (payloadCount act.payload : ℚ))))

/-- Embedding of `unit_created_timeseries` from `metrics.py` (the
`astype(int)` cast is the identity here because all weights are integers). -/
def unit_created_timeseries (m : GameMatch) (pattern : String → Bool) (w : ℕ) :
    Option TSeries :=
  buildTS w (unitCreatedRows m pattern) (fun col => col)

/-- The `_resource_delta_for_action` helper of `metrics.py`: signed
`(food, wood, gold, stone)` delta of one action, `none` when the action does
not resolve to a cost. -/
def resourceDeltaForAction (act : Action) : Option ResourceCost :=
  let tname := act.typeName
  let payload := act.payload
  if tname == "DE_QUEUE" || tname == "QUEUE" || tname == "ORDER" ||
      tname == "TRAIN" || tname == "CREATE" then
    let name := pyOr (dictGet payload "unit")
      (pyOr (dictGet payload "unit_name") (dictGet payload "object_name"))
    if truthy name then
      match unit_cost (pyStr name) with
      | some (f, wd, g, s) =>
        let amt := pyIntTotal (pyOr (dictGet payload "amount") (.pint 1))
        some (-f * amt, -wd * amt, -g * amt, -s * amt)
      | none => none
    else none
  else if tname == "BUILD" then
    let name := pyOr (dictGet payload "building") (dictGet payload "building_name")
    if truthy name then
      match building_cost (pyStr name) with
      | some (f, wd, g, s) => some (-f, -wd, -g, -s)
      | none => none
    else none
  else if tname == "RESEARCH" then
    let name := pyOr (dictGet payload "technology") (dictGet payload "tech")
    if truthy name then
      match tech_cost (pyStr name) with
      | some (f, wd, g, s) => some (-f, -wd, -g, -s)
      | none => none
    else none
  else if tname == "BUY" || tname == "SELL" then
    let res := pyLower (pyStr (dictGetD payload "resource" (.pstr "")))
    let amt := pyIntTotal (pyOr (dictGet payload "amount") (.pint 0))
    if amt != 0 then
      let sign : ℤ := if tname == "BUY" then 1 else -1
      if strHasSeq "food" res then some (sign * amt, 0, 0, 0)
      else if strHasSeq "wood" res then some (0, sign * amt, 0, 0)
      else if strHasSeq "gold" res then some (0, 0, sign * amt, 0)
      else if strHasSeq "stone" res then some (0, 0, 0, sign * amt)
      else none
    else none
  else none

/-- Component of a resource delta selected by the `{'food': 0, ...}` index. -/
def deltaComp (d : ResourceCost) : ℕ → ℤ
  | 0 => d.1
  | 1 => d.2.1
  | 2 => d.2.2.1
  | _ => d.2.2.2

/-- The `{'food': 0, 'wood': 1, 'gold': 2, 'stone': 3}.get(res)` lookup. -/
def resIdx (res : String) : Option ℕ :=
  if res == "food" then some 0
  else if res == "wood" then some 1
  else if res == "gold" then some 2
  else if res == "stone" then some 3
  else none

/-- Rows shared by the spend/balance/total-spend functions: timestamp, player
number, and resolved delta of every attributed action with a delta. -/
def deltaRows (m : GameMatch) : List (ℚ × ℤ × ResourceCost) :=
  m.actions.filterMap (fun act =>
    match act.player with
    | none => none
    | some p =>
      (resourceDeltaForAction act).map (fun d => (act.timestamp, p.number, d)))

/-- Rows of `resource_spend_timeseries`: negative deltas only, stored as
positive magnitudes. -/
def spendRows (m : GameMatch) (idx : ℕ) : List (ℚ × ℤ × ℚ) :=
  (deltaRows m).filterMap (fun r =>
    if deltaComp r.2.2 idx < 0 then some (r.1, r.2.1, ((-deltaComp r.2.2 idx : ℤ) : ℚ))
    else none)

/-- Rows of `resource_balance_timeseries`: every signed delta. -/
def balanceRows (m : GameMatch) (idx : ℕ) : List (ℚ × ℤ × ℚ) :=
  (deltaRows m).map (fun r => (r.1, r.2.1, ((deltaComp r.2.2 idx : ℤ) : ℚ)))

/-- Embedding of `resource_spend_timeseries` from `metrics.py`. -/
def resource_spend_timeseries (m : GameMatch) (resource : String) (w : ℕ) :
    Except String (Option TSeries) :=
  match resIdx (pyLower resource) with
  | none => .error "Recurso no soportado"
  | some idx => .ok (buildTS w (spendRows m idx) (fun col => col))

/-- Embedding of `resource_balance_timeseries` from `metrics.py`: cumulative
signed deltas offset by the starting stock. -/
def resource_balance_timeseries (m : GameMatch) (resource : String) (w : ℕ)
    (startAt : ℚ) : Except String (Option TSeries) :=
  match resIdx (pyLower resource) with
  | none => .error "Recurso no soportado"
  | some idx =>
    .ok (buildTS w (balanceRows m idx)
      (fun col => (cumsum col).map (fun b => b + startAt)))

/-- Negative part of one delta component, as spent magnitude. -/
def negPart (v : ℤ) : ℤ := if v < 0 then -v else 0

/-- The `sum((-v) for v in delta if v < 0)` total of one action. -/
def negSum (d : ResourceCost) : ℤ :=
  negPart d.1 + negPart d.2.1 + negPart d.2.2.1 + negPart d.2.2.2

/-- Rows of `total_spend_timeseries`: total spend magnitude across all four
resources, zero-spend actions excluded. -/
def totalSpendRows (m : GameMatch) : List (ℚ × ℤ × ℚ) :=
  (deltaRows m).filterMap (fun r =>
    if negSum r.2.2 > 0 then some (r.1, r.2.1, ((negSum r.2.2 : ℤ) : ℚ)) else none)

/-- Embedding of `total_spend_timeseries` from `metrics.py`. -/
def total_spend_timeseries (m : GameMatch) (w : ℕ) (cumulative : Bool) :
    Option TSeries :=
  buildTS w (totalSpendRows m) (fun col => if cumulative then cumsum col else col)

/-- State of the `tc_idle_cumulative_timeseries` fold: per-player lists of
`(timestamp, increment)` pairs and last matched timestamp. -/
structure CumState where
  incs : List (ℤ × List (ℚ × ℚ))
  last : List (ℤ × Option ℚ)

/-- Loop of `tc_idle_cumulative_timeseries`: same gap rule as `tc_idle_time`,
but each detected increment is recorded at the event that closed the gap. -/
def tcIdleCumGo (pattern : String → Bool) (base gapThr : ℚ) (st : CumState) :
    List Action → Except String CumState
  | [] => .ok st
  | act :: rest =>
    if !isProdEvent act.typeName then tcIdleCumGo pattern base gapThr st rest
    else if !payloadMatches act.payload pattern then
      tcIdleCumGo pattern base gapThr st rest
    else
      match act.player with
      | none => tcIdleCumGo pattern base gapThr st rest
      | some p =>
        match mapGet? st.last p.number with
        | none => .error "KeyError"
        | some lastv =>
          let t := act.timestamp
          match lastv with
          | none =>
            tcIdleCumGo pattern base gapThr
              ⟨st.incs, mapSet st.last p.number (some t)⟩ rest
          | some lt =>
            if t - lt > gapThr then
              match mapGet? st.incs p.number with
              | none => .error "KeyError"
              | some pairs =>
                tcIdleCumGo pattern base gapThr
                  ⟨mapSet st.incs p.number (pairs ++ [(t, pyMax 0 (t - lt - base))]),
                    mapSet st.last p.number (some t)⟩ rest
            else
              tcIdleCumGo pattern base gapThr
                ⟨st.incs, mapSet st.last p.number (some t)⟩ rest

/-- Forward-fill scan: the value of the last entry whose index is `≤ b`,
else the running default `cur`. -/
def ffillFrom (cur : ℚ) : List (ℚ × ℚ) → ℚ → ℚ
  | [], _ => cur
  | r :: rest, b => if r.1 ≤ b then ffillFrom r.2 rest b else ffillFrom cur rest b

/-- Pandas `Series.reindex(bins, method='ffill').fillna(0.0)` at one label,
for a series with sorted index: the value at the greatest index `≤ b`, else
0.  (Pandas raises on duplicate index labels; see the note at
`tc_idle_cumulative_timeseries`.) -/
def ffillAt (pairs : List (ℚ × ℚ)) (b : ℚ) : ℚ := ffillFrom 0 pairs b

/-- Helper for `cumPairs`: running cumulative sum paired with timestamps. -/
def cumPairsFrom (acc : ℚ) : List (ℚ × ℚ) → List (ℚ × ℚ)
  | [] => []
  | r :: rest => (r.1, acc + r.2) :: cumPairsFrom (acc + r.2) rest

/-- The cumulative-sum series of sorted `(t, inc)` pairs:
`pd.Series(np.cumsum(inc_arr), index=t_arr)`. -/
def cumPairs (pairs : List (ℚ × ℚ)) : List (ℚ × ℚ) := cumPairsFrom 0 pairs

/-- Ordering of `(t, inc)` pairs by timestamp, as `pairs.sort(key=...)`. -/
def pairLE (a b : ℚ × ℚ) : Prop := a.1 ≤ b.1

instance : DecidableRel pairLE := fun a b => inferInstanceAs (Decidable (a.1 ≤ b.1))

instance : IsTotal (ℚ × ℚ) pairLE := ⟨fun a b => le_total a.1 b.1⟩

instance : IsTrans (ℚ × ℚ) pairLE := ⟨fun _ _ _ h h' => le_trans h h'⟩

/-- One player's output column: scatter the sorted cumulative increments onto
the window-start edges by forward fill. -/
def cumColumn (w nW : ℕ) (pairs : List (ℚ × ℚ)) : List ℚ :=
  let sorted := List.insertionSort pairLE pairs
  let cp := cumPairs sorted
  (List.range nW).map (fun i => ffillAt cp ((i * w : ℕ) : ℚ))

/-- Embedding of `tc_idle_cumulative_timeseries` from `metrics.py`.  The
`pairs.sort` call is modelled by a stable merge sort; `s.reindex` is modelled
by `ffillAt` (pandas raises a `ValueError` on duplicate index labels, i.e.
when one player has two increments at the same timestamp — the claims below
never touch that corner). -/
def tc_idle_cumulative_timeseries (m : GameMatch) (pattern : String → Bool)
    (w : ℕ) (base gapThr : ℚ) : Except String (Option TSeries) :=
  (tcIdleCumGo pattern base gapThr
      ⟨initMap m.players [], initMap m.players none⟩ m.actions).map
    (fun st =>
      let allTimes := st.incs.flatMap (fun e => e.2.map (fun r => r.1))
      match allTimes with
      | [] => none
      | _ =>
        let maxT := maxList allTimes
        let nW := numWindows maxT w
        some
          { index := windowStarts nW w
            cols := st.incs.filterMap (fun e =>
              if e.2.isEmpty then none else some (e.1, cumColumn w nW e.2)) })

/-- numpy `linspace(a, b, num)` with the default inclusive endpoint. -/
def linspace (a b : ℚ) (num : ℕ) : List ℚ :=
  if num = 0 then []
  else if num = 1 then [a]
  else (List.range num).map (fun i => a + (b - a) * i / ((num : ℚ) - 1))

/-- Dict insertion `d[k] = v` that may add a fresh key at the end. -/
def dictInsertReplace (d : List (ℤ × α)) (k : ℤ) (v : α) : List (ℤ × α) :=
  if d.any (fun e => e.1 == k) then mapSet d k v else d ++ [(k, v)]

/-- Embedding of `resource_cumulative_timeseries` from `metrics.py`: after
validating the resource name it ignores the action stream entirely and
returns, for every player, a linear ramp from 0 to the player's postgame
total across `ceil(duration / w)` windows. -/
def resource_cumulative_timeseries (m : GameMatch)
    (totals : List (ℤ × List (String × ℚ))) (resource : String) (w : ℕ) :
    Except String TSeries :=
  let res := pyLower resource
  if res == "food" || res == "wood" || res == "gold" || res == "stone" then
    let maxT := m.duration
    let nW := binEdgeCount maxT w - 1
    .ok
      { index := windowStarts nW w
        cols := m.players.foldl (fun d p =>
          let totalVal :=
            match mapGet? totals p.number with
            | some planMap =>
              match planMap.find? (fun e => e.1 == res) with
              | some e => e.2
              | none => 0
            | none => 0
          dictInsertReplace d p.number (linspace 0 totalVal nW)) [] }
  else .error "Recurso no soportado"

/-- An important-events row: `(time_sec, player, label, kind)`. -/
abbrev Event := ℚ × ℤ × String × String

/-- The fixed allow-list of high-impact techs in `important_events`. -/
def hiTechs : List String :=
  ["bracer", "chemistry", "hand cart", "wheelbarrow", "conscription",
    "ballistics", "siege engineers", "architecture", "thumb ring"]

/-- Row extraction of `important_events`, in action order. -/
def importantEventsRows (m : GameMatch) : List Event :=
  m.actions.flatMap (fun act =>
    match act.player with
    | none => []
    | some p =>
      let t := act.timestamp
      let tname := act.typeName
      let payload := act.payload
      if tname == "RESEARCH" then
        let tech := pyStr (pyOr (dictGet payload "technology") (.pstr ""))
        let lname := pyLower tech
        if lname == "feudal age" || lname == "castle age" ||
            lname == "imperial age" then [(t, p.number, tech, "age")]
        else if listStartsWith "elite ".toList lname.toList then
          [(t, p.number, tech, "elite")]
        else if hiTechs.any (fun k => strHasSeq k lname) then
          [(t, p.number, tech, "tech")]
        else []
      else if tname == "BUILD" then
        let b := pyStr (pyOr (dictGet payload "building") (.pstr ""))
        let lb := pyLower b
        (if lb == "castle" then [(t, p.number, b, "castle")] else []) ++
          (if lb == "town center" then [(t, p.number, b, "tc")] else [])
      else [])

/-- Do two event rows share the `(player, label)` dedup key? -/
def samePL (a b : Event) : Bool := a.2.1 == b.2.1 && a.2.2.1 == b.2.2.1

/-- Pandas `drop_duplicates(subset=['player','label'], keep='first')`,
carrying the list of keys already kept. -/
def dedupPLGo (seen : List (ℤ × String)) : List Event → List Event
  | [] => []
  | r :: rs =>
    if seen.contains (r.2.1, r.2.2.1) then dedupPLGo seen rs
    else r :: dedupPLGo ((r.2.1, r.2.2.1) :: seen) rs

/-- Ordering of event rows by `time_sec`, as `df.sort_values('time_sec')`. -/
def evLE (a b : Event) : Prop := a.1 ≤ b.1

instance : DecidableRel evLE := fun a b => inferInstanceAs (Decidable (a.1 ≤ b.1))

instance : IsTotal Event evLE := ⟨fun a b => le_total a.1 b.1⟩

instance : IsTrans Event evLE := ⟨fun _ _ _ h h' => le_trans h h'⟩

/-- Embedding of `important_events` from `metrics.py`: rows sorted by time
(a stable sort models the pandas sort) then deduplicated keeping the first. -/
def important_events (m : GameMatch) : List Event :=
  dedupPLGo [] (List.insertionSort evLE (importantEventsRows m))

/-- Largest contributing timestamp of a row list. -/
def seriesMaxT (rows : List (ℚ × ℤ × ℚ)) : ℚ := maxList (rows.map (fun r => r.1))

/-- All idle-increment timestamps collected by
`tc_idle_cumulative_timeseries` (empty when the fold raises). -/
def idleIncTimes (m : GameMatch) (pattern : String → Bool) (base gapThr : ℚ) :
    List ℚ :=
  match tcIdleCumGo pattern base gapThr
      ⟨initMap m.players [], initMap m.players none⟩ m.actions with
  | .ok st => st.incs.flatMap (fun e => e.2.map (fun r => r.1))
  | .error _ => []

/-- The `(player, label)` dedup key of an event row. -/
def evKey (r : Event) : ℤ × String := (r.2.1, r.2.2.1)

/-- Keys of a player-indexed dict. -/
def keysOf (d : List (ℤ × α)) : List ℤ := d.map (fun e => e.1)

/-- The increment pairs recorded for one player by the
`tc_idle_cumulative_timeseries` fold. -/
def idleIncPairs (m : GameMatch) (pattern : String → Bool) (base gapThr : ℚ)
    (pid : ℤ) : List (ℚ × ℚ) :=
  match tcIdleCumGo pattern base gapThr
      ⟨initMap m.players [], initMap m.players none⟩ m.actions with
  | .ok st => (mapGet? st.incs pid).getD []
  | .error _ => []

/-- Value of a column of a series at a window, 0 when absent. -/
def colAt (ts : TSeries) (pid : ℤ) (j : ℕ) : ℚ :=
  match mapGet? ts.cols pid with
  | some col => col.getD j 0
  | none => 0

/-- Cumulative spend of a player over windows `0..i` of a spend result,
treating the no-data marker, an error, a missing player and out-of-range
windows all as zero spend. -/
def spendCumAt (r : Except String (Option TSeries)) (pid : ℤ) (i : ℕ) : ℚ :=
  match r with
  | .ok (some ts) => ((List.range (i + 1)).map (fun j => colAt ts pid j)).sum
  | _ => 0

/-! Concrete example matches used to instantiate the theorems below. -/

/-- A TRAIN action of one unit by player 1. -/
def trainAct (t : ℚ) (u : String) : Action :=
  { timestamp := t, player := some ⟨1⟩, typeName := "TRAIN",
    payload := [("unit", .pstr u)] }

/-- A BUILD action by player 1. -/
def buildAct (t : ℚ) (b : String) : Action :=
  { timestamp := t, player := some ⟨1⟩, typeName := "BUILD",
    payload := [("building", .pstr b)] }

/-- A RESEARCH action by player 1. -/
def researchAct (t : ℚ) (tech : String) : Action :=
  { timestamp := t, player := some ⟨1⟩, typeName := "RESEARCH",
    payload := [("technology", .pstr tech)] }

/-- A villager-production event (matching payload) at time `t` by player 1. -/
def vilAct (t : ℚ) : Action :=
  { timestamp := t, player := some ⟨1⟩, typeName := "TRAIN",
    payload := [("unit_name", .pstr "Villager")] }

/-- Match of the `tc_idle_time` spec example: villager production at
timestamps 0, 25, 52, 100. -/
def exIdleM : GameMatch :=
  { players := [⟨1⟩],
    actions := [vilAct 0, vilAct 25, vilAct 52, vilAct 100], duration := 100 }

/-- Match with only production/build actions: a villager (50 food) queued at
t = 10 and a house (0 food) built at t = 15. -/
def exSpendM : GameMatch :=
  { players := [⟨1⟩],
    actions := [trainAct 10 "Villager", buildAct 15 "House"], duration := 20 }

/-- Match with an empty action list. -/
def exEmptyM : GameMatch := { players := [⟨1⟩], actions := [], duration := 10 }

/-- Match with a single food spend (a villager queued at t = 10), so the
spend and balance series share one window grid. -/
def exSpend1M : GameMatch :=
  { players := [⟨1⟩], actions := [trainAct 10 "Villager"], duration := 20 }

/-- Postgame totals assigning player 1 a food total of 100. -/
def exTotals : List (ℤ × List (String × ℚ)) := [(1, [("food", 100)])]

/-- Match with two duplicate "Feudal Age" researches by player 1 at
different times (the later one recorded first). -/
def exFeudalM : GameMatch :=
  { players := [⟨1⟩],
    actions := [researchAct 300 "Feudal Age", researchAct 120 "Feudal Age"],
    duration := 400 }

/-- C2 counterexample: on villager timestamps `[0, 25, 52, 100]` with
`base_prod_time = 25` and `gap_threshold = 27`, `tc_idle_time` does NOT
return 25 for player 1 — the gap `52 - 25 = 27` equals the threshold and the
code only counts gaps strictly greater than it. -/
theorem tc_idle_time_spec_example_not_25 :
    tc_idle_time exIdleM (fun _ => true) 25 27 ≠ .ok [(1, 25)] := by
  with_unfolding_all decide

/-- C2 (amended): on villager timestamps `[0, 25, 52, 100]` with
`base_prod_time = 25` and `gap_threshold = 27`, `tc_idle_time` returns
exactly 23 seconds of idle time for the player: the `52 - 25 = 27` gap does
not exceed the threshold, and only the `100 - 52 = 48` gap contributes
`max(0, 48 - 25) = 23`. -/
theorem tc_idle_time_spec_example_is_23 :
    tc_idle_time exIdleM (fun _ => true) 25 27 = .ok [(1, 23)] := by
  with_unfolding_all decide

/-- C7: cost resolution is case-insensitive and resolves partial names via
the substring stage: `unit_cost "Crossbowman"`, `unit_cost "crossbowman"`
and `unit_cost "Elite Crossbowman"` all yield the crossbowman tuple
`(0, 25, 45, 0)`, while a query matching no stage ("Trebuchet") yields
absence (`none`), not a zero cost. -/
theorem unit_cost_case_and_substring_invariance :
    unit_cost "Crossbowman" = some (0, 25, 45, 0) ∧
    unit_cost "crossbowman" = unit_cost "Crossbowman" ∧
    unit_cost "Elite Crossbowman" = unit_cost "Crossbowman" ∧
    unit_cost "Trebuchet" = none := by
  with_unfolding_all decide

/-- C8 counterexample: feeding a match with an empty action list to
`resource_cumulative_timeseries` does NOT yield the "no data" marker: the
function ignores the action stream and returns a populated two-window series
ramping to the postgame total (value 100 in the second window). -/
theorem resource_cumulative_empty_actions_populated :
    exEmptyM.actions = [] ∧
    resource_cumulative_timeseries exEmptyM exTotals "food" 5 =
      .ok ⟨[0, 5], [(1, [0, 100])]⟩ ∧
    ((100 : ℚ) ≠ 0) := by
  refine ⟨rfl, ?_, by norm_num⟩
  with_unfolding_all decide

/-- C3 counterexample: a match satisfying the claim's hypotheses (only
production/build actions, no market) where
`resource_balance_timeseries ≠ start_at - cumulative spend` at window 0.
The last food spend (t = 10) determines a one-window spend grid whose closed
last bin swallows the t = 10 event into window 0, while the later zero-food
build action (t = 15) stretches the balance grid to two windows where the
t = 10 event lands in window 1: balance at window 0 is 200, but
`start_at - cumulative_spend(window 0) = 200 - 50 = 150`. -/
theorem balance_vs_spend_window_mismatch :
    (∀ act ∈ exSpendM.actions,
      act.typeName = "TRAIN" ∨ act.typeName = "BUILD" ∨ act.typeName = "RESEARCH") ∧
    resource_spend_timeseries exSpendM "food" 10 =
      .ok (some ⟨[0], [(1, [50])]⟩) ∧
    resource_balance_timeseries exSpendM "food" 10 200 =
      .ok (some ⟨[0, 10], [(1, [200, 150])]⟩) ∧
    ((200 : ℚ) ≠ 200 - 50) := by
  refine ⟨?_, ?_, ?_, by norm_num⟩
  · with_unfolding_all decide
  · with_unfolding_all decide
  · with_unfolding_all decide

/-- The `resIdx` lookup fails exactly off the supported set. -/
theorem resIdx_none_iff (s : String) :
    resIdx s = none ↔ s ∉ ["food", "wood", "gold", "stone"] := by
  simp only [resIdx, List.mem_cons, List.not_mem_nil, or_false]
  split_ifs with h1 h2 h3 h4 <;> simp_all [beq_iff_eq]

/-- The validation disjunction of `resource_cumulative_timeseries` tests the
same membership. -/
theorem resSupported_iff (s : String) :
    (s == "food" || s == "wood" || s == "gold" || s == "stone") = true ↔
      s ∈ ["food", "wood", "gold", "stone"] := by
  simp [List.mem_cons, beq_iff_eq, or_assoc]

/-- C4: the three resource-keyed series raise the invalid-argument failure
`ValueError('Recurso no soportado')` exactly when the lower-cased resource
name is outside the closed set food/wood/gold/stone, and conversely return a
(possibly empty) result exactly when it is inside: a supported name is never
substituted away and an unsupported name never yields a result. -/
theorem resource_name_validation (resource : String) (m : GameMatch) (w : ℕ)
    (startAt : ℚ) (totals : List (ℤ × List (String × ℚ))) :
    (resource_spend_timeseries m resource w = .error "Recurso no soportado" ↔
      pyLower resource ∉ ["food", "wood", "gold", "stone"]) ∧
    (resource_balance_timeseries m resource w startAt =
        .error "Recurso no soportado" ↔
      pyLower resource ∉ ["food", "wood", "gold", "stone"]) ∧
    (resource_cumulative_timeseries m totals resource w =
        .error "Recurso no soportado" ↔
      pyLower resource ∉ ["food", "wood", "gold", "stone"]) ∧
    ((∃ v, resource_spend_timeseries m resource w = .ok v) ↔
      pyLower resource ∈ ["food", "wood", "gold", "stone"]) ∧
    ((∃ v, resource_balance_timeseries m resource w startAt = .ok v) ↔
      pyLower resource ∈ ["food", "wood", "gold", "stone"]) ∧
    ((∃ v, resource_cumulative_timeseries m totals resource w = .ok v) ↔
      pyLower resource ∈ ["food", "wood", "gold", "stone"]) := by
  have hspend :
      resource_spend_timeseries m resource w =
        match resIdx (pyLower resource) with
        | none => .error "Recurso no soportado"
        | some idx => .ok (buildTS w (spendRows m idx) (fun col => col)) := rfl
  have hbal :
      resource_balance_timeseries m resource w startAt =
        match resIdx (pyLower resource) with
        | none => .error "Recurso no soportado"
        | some idx =>
          .ok (buildTS w (balanceRows m idx)
            (fun col => (cumsum col).map (fun b => b + startAt))) := rfl
  cases hidx : resIdx (pyLower resource) with
  | none =>
    have hmem : pyLower resource ∉ ["food", "wood", "gold", "stone"] :=
      (resIdx_none_iff _).mp hidx
    have hcond :
        (pyLower resource == "food" || pyLower resource == "wood" ||
          pyLower resource == "gold" || pyLower resource == "stone") = false := by
      rcases h : (pyLower resource == "food" || pyLower resource == "wood" ||
          pyLower resource == "gold" || pyLower resource == "stone") with _ | _
      · rfl
      · exact absurd ((resSupported_iff _).mp h) hmem
    refine ⟨?_, ?_, ?_, ?_, ?_, ?_⟩ <;>
      simp [hspend, hbal, resource_cumulative_timeseries, hidx, hcond, hmem]
  | some idx =>
    have hmem : pyLower resource ∈ ["food", "wood", "gold", "stone"] := by
      by_contra hmem
      rw [← resIdx_none_iff] at hmem
      rw [hidx] at hmem
      exact Option.some_ne_none idx hmem
    have hcond :
        (pyLower resource == "food" || pyLower resource == "wood" ||
          pyLower resource == "gold" || pyLower resource == "stone") = true :=
      (resSupported_iff _).mpr hmem
    refine ⟨?_, ?_, ?_, ?_, ?_, ?_⟩ <;>
      simp [hspend, hbal, resource_cumulative_timeseries, hidx, hcond, hmem]

/-! Generic lemmas about the windowing machinery. -/

theorem cumsumFrom_length (l : List ℚ) : ∀ a, (cumsumFrom a l).length = l.length := by
  induction l with
  | nil => intro a; rfl
  | cons x xs ih => intro a; simp [cumsumFrom, ih]

theorem cumsum_length (l : List ℚ) : (cumsum l).length = l.length :=
  cumsumFrom_length l 0

theorem range_map_getD {α} (f : ℕ → α) (n i : ℕ) (d : α) (h : i < n) :
    ((List.range n).map f).getD i d = f i := by
  rw [List.getD_eq_getElem?_getD]
  simp [List.getElem?_map, List.getElem?_range, h]

theorem cumsumFrom_getD_succ :
    ∀ (l : List ℚ) (a : ℚ) (i : ℕ), i + 1 < l.length →
      (cumsumFrom a l).getD (i + 1) 0 =
        (cumsumFrom a l).getD i 0 + l.getD (i + 1) 0 := by
  intro l
  induction l with
  | nil => intro a i h; simp at h
  | cons x xs ih =>
    intro a i h
    cases i with
    | zero =>
      cases xs with
      | nil => simp at h
      | cons y ys => simp [cumsumFrom]
    | succ j =>
      have hj : j + 1 < xs.length := by
        simpa [List.length_cons] using Nat.lt_of_succ_lt_succ h
      simpa [cumsumFrom] using ih (a + x) j hj

theorem foldl_add_init (l : List (ℚ × ℚ)) :
    ∀ init : ℚ, l.foldl (fun a r => a + r.2) init =
      init + l.foldl (fun a r => a + r.2) 0 := by
  induction l with
  | nil => intro init; simp
  | cons x xs ih =>
    intro init
    simp only [List.foldl_cons]
    rw [ih (init + x.2), ih (0 + x.2)]
    ring

theorem foldl_add_nonneg (l : List (ℚ × ℚ)) (h : ∀ r ∈ l, 0 ≤ r.2) :
    0 ≤ l.foldl (fun a r => a + r.2) 0 := by
  induction l with
  | nil => simp
  | cons x xs ih =>
    simp only [List.foldl_cons, zero_add]
    rw [foldl_add_init]
    have hx : 0 ≤ x.2 := h x (List.mem_cons_self x xs)
    have hxs : 0 ≤ xs.foldl (fun a r => a + r.2) 0 :=
      ih (fun r hr => h r (List.mem_cons_of_mem x hr))
    linarith

theorem histWeight_nonneg (w nW i : ℕ) (rows : List (ℚ × ℚ))
    (h : ∀ r ∈ rows, 0 ≤ r.2) : 0 ≤ histWeight w nW i rows :=
  foldl_add_nonneg _ (fun r hr => h r (List.mem_of_mem_filter hr))

theorem histogram_length (w nW : ℕ) (rows : List (ℚ × ℚ)) :
    (histogram w nW rows).length = nW := by
  simp [histogram]

theorem histogram_getD (w nW : ℕ) (rows : List (ℚ × ℚ)) (i : ℕ) (h : i < nW) :
    (histogram w nW rows).getD i 0 = histWeight w nW i rows :=
  range_map_getD _ _ _ _ h

theorem buildTS_index (w : ℕ) (rows : List (ℚ × ℤ × ℚ))
    (post : List ℚ → List ℚ) (ts : TSeries)
    (h : buildTS w rows post = some ts) :
    ts.index = windowStarts (numWindows (maxList (rows.map (fun r => r.1))) w) w := by
  cases rows with
  | nil => simp [buildTS] at h
  | cons r rest =>
    simp only [buildTS] at h
    cases h
    rfl

theorem buildTS_cols_mem (w : ℕ) (rows : List (ℚ × ℤ × ℚ))
    (post : List ℚ → List ℚ) (ts : TSeries)
    (h : buildTS w rows post = some ts) (pc : ℤ × List ℚ) (hpc : pc ∈ ts.cols) :
    ∃ pid, pc = (pid, post (histogram w
      (numWindows (maxList (rows.map (fun r => r.1))) w)
      ((rows.filter (fun r => r.2.1 == pid)).map (fun r => (r.1, r.2.2))))) := by
  cases rows with
  | nil => simp [buildTS] at h
  | cons r rest =>
    simp only [buildTS] at h
    cases h
    simp only [List.mem_map] at hpc
    obtain ⟨pid, _, hpid⟩ := hpc
    exact ⟨pid, hpid.symm⟩

theorem totalSpendRows_pos (m : GameMatch) (r : ℚ × ℤ × ℚ)
    (hr : r ∈ totalSpendRows m) : 0 < r.2.2 := by
  simp only [totalSpendRows, List.mem_filterMap] at hr
  obtain ⟨a, _, ha⟩ := hr
  by_cases hpos : negSum a.2.2 > 0
  · rw [if_pos hpos] at ha
    cases ha
    show (0 : ℚ) < ((negSum a.2.2 : ℤ) : ℚ)
    exact_mod_cast hpos
  · rw [if_neg hpos] at ha
    cases ha

/-- C10: with `cumulative = true`, every per-player series returned by
`total_spend_timeseries` is monotonically non-decreasing, because every
per-action contribution (the summed magnitude of that action's negative
resource deltas) is strictly positive after zero-spend actions are excluded,
so every window total is non-negative and the cumulative sum never
decreases. -/
theorem total_spend_cumulative_monotone (m : GameMatch) (w : ℕ) (ts : TSeries)
    (h : total_spend_timeseries m w true = some ts) :
    ∀ pc ∈ ts.cols, ∀ i : ℕ, i + 1 < pc.2.length →
      pc.2.getD i 0 ≤ pc.2.getD (i + 1) 0 := by
  intro pc hpc i hi
  obtain ⟨pid, hpid⟩ :=
    buildTS_cols_mem w (totalSpendRows m)
      (fun col => if true then cumsum col else col) ts h pc hpc
  set rowsP := ((totalSpendRows m).filter (fun r => r.2.1 == pid)).map
    (fun r => (r.1, r.2.2)) with hrowsP
  set nW := numWindows (maxList ((totalSpendRows m).map (fun r => r.1))) w with hnW
  have hcol : pc.2 = cumsum (histogram w nW rowsP) := by
    rw [hpid]; simp
  have hiN : i + 1 < nW := by
    rw [hcol, cumsum_length, histogram_length] at hi; exact hi
  rw [hcol]
  have hi' : i + 1 < (histogram w nW rowsP).length := by
    rw [histogram_length]; exact hiN
  rw [cumsum, cumsumFrom_getD_succ _ _ _ hi']
  have hnn : 0 ≤ (histogram w nW rowsP).getD (i + 1) 0 := by
    rw [histogram_getD _ _ _ _ hiN]
    refine histWeight_nonneg _ _ _ _ ?_
    intro r hr
    simp only [hrowsP, List.mem_map] at hr
    obtain ⟨a, ha, har⟩ := hr
    have := totalSpendRows_pos m a (List.mem_of_mem_filter ha)
    rw [← har]
    exact le_of_lt this
  linarith

/-- Witness for C10 at a concrete match: the cumulative column `[0, 75]` of
`exSpendM` is non-decreasing at its only adjacent pair. -/
theorem total_spend_cumulative_monotone_witness :
    [(0 : ℚ), 75].getD 0 0 ≤ [(0 : ℚ), 75].getD 1 0 := by
  have h := total_spend_cumulative_monotone exSpendM 10 ⟨[0, 10], [(1, [0, 75])]⟩
    (by with_unfolding_all decide)
  exact h (1, [0, 75]) (by simp) 0 (by simp)





theorem numWindows_eq_ceil (maxT : ℚ) (w : ℕ) (hw : 0 < w) :
    numWindows maxT w = (⌈maxT / (w : ℚ)⌉).toNat := by
  have hw' : (w : ℚ) ≠ 0 := by
    exact_mod_cast hw.ne'
  unfold numWindows binEdgeCount arangeCount
  have hdiv : (maxT + w) / w = maxT / w + 1 := by
    field_simp
  rw [hdiv, Int.ceil_add_one]
  omega

theorem cumColumn_length (w nW : ℕ) (pairs : List (ℚ × ℚ)) :
    (cumColumn w nW pairs).length = nW := by
  simp [cumColumn]

theorem buildTS_shape (w : ℕ) (hw : 0 < w) (rows : List (ℚ × ℤ × ℚ))
    (post : List ℚ → List ℚ) (hpost : ∀ l, (post l).length = l.length)
    (ts : TSeries) (h : buildTS w rows post = some ts) :
    ts.index = windowStarts ((⌈seriesMaxT rows / (w : ℚ)⌉).toNat) w ∧
    ∀ pc ∈ ts.cols, pc.2.length = (⌈seriesMaxT rows / (w : ℚ)⌉).toNat := by
  have hidx := buildTS_index w rows post ts h
  rw [numWindows_eq_ceil _ _ hw] at hidx
  refine ⟨hidx, ?_⟩
  intro pc hpc
  obtain ⟨pid, hpid⟩ := buildTS_cols_mem w rows post ts h pc hpc
  rw [hpid]
  simp only
  rw [hpost, histogram_length, numWindows_eq_ceil _ _ hw]
  rfl

/-- C1: for every window width `w > 0`, each windowed operation that returns
a non-empty result returns, for every player, a series whose length is
`ceil(max_contributing_timestamp / w)`, with all columns sharing the single
window-start index `0, w, 2w, ...` of that same length. -/
theorem windowed_series_shape (w : ℕ) (hw : 0 < w) :
    (∀ (m : GameMatch) (ts : TSeries), apm_timeseries m w = some ts →
      ts.index = windowStarts ((⌈seriesMaxT (apmRows m) / (w : ℚ)⌉).toNat) w ∧
      ∀ pc ∈ ts.cols, pc.2.length = (⌈seriesMaxT (apmRows m) / (w : ℚ)⌉).toNat) ∧
    (∀ (m : GameMatch) (pattern : String → Bool) (ts : TSeries),
      unit_created_timeseries m pattern w = some ts →
      ts.index =
        windowStarts ((⌈seriesMaxT (unitCreatedRows m pattern) / (w : ℚ)⌉).toNat) w ∧
      ∀ pc ∈ ts.cols,
        pc.2.length = (⌈seriesMaxT (unitCreatedRows m pattern) / (w : ℚ)⌉).toNat) ∧
    (∀ (m : GameMatch) (resource : String) (idx : ℕ) (ts : TSeries),
      resIdx (pyLower resource) = some idx →
      resource_spend_timeseries m resource w = .ok (some ts) →
      ts.index = windowStarts ((⌈seriesMaxT (spendRows m idx) / (w : ℚ)⌉).toNat) w ∧
      ∀ pc ∈ ts.cols,
        pc.2.length = (⌈seriesMaxT (spendRows m idx) / (w : ℚ)⌉).toNat) ∧
    (∀ (m : GameMatch) (resource : String) (idx : ℕ) (startAt : ℚ) (ts : TSeries),
      resIdx (pyLower resource) = some idx →
      resource_balance_timeseries m resource w startAt = .ok (some ts) →
      ts.index = windowStarts ((⌈seriesMaxT (balanceRows m idx) / (w : ℚ)⌉).toNat) w ∧
      ∀ pc ∈ ts.cols,
        pc.2.length = (⌈seriesMaxT (balanceRows m idx) / (w : ℚ)⌉).toNat) ∧
    (∀ (m : GameMatch) (cumulative : Bool) (ts : TSeries),
      total_spend_timeseries m w cumulative = some ts →
      ts.index = windowStarts ((⌈seriesMaxT (totalSpendRows m) / (w : ℚ)⌉).toNat) w ∧
      ∀ pc ∈ ts.cols,
        pc.2.length = (⌈seriesMaxT (totalSpendRows m) / (w : ℚ)⌉).toNat) ∧
    (∀ (m : GameMatch) (pattern : String → Bool) (base gapThr : ℚ) (ts : TSeries),
      tc_idle_cumulative_timeseries m pattern w base gapThr = .ok (some ts) →
      ts.index = windowStarts
        ((⌈maxList (idleIncTimes m pattern base gapThr) / (w : ℚ)⌉).toNat) w ∧
      ∀ pc ∈ ts.cols,
        pc.2.length =
          (⌈maxList (idleIncTimes m pattern base gapThr) / (w : ℚ)⌉).toNat) := by
  refine ⟨?_, ?_, ?_, ?_, ?_, ?_⟩
  · intro m ts h
    exact buildTS_shape w hw _ _ (fun l => by simp) ts h
  · intro m pattern ts h
    exact buildTS_shape w hw _ _ (fun l => rfl) ts h
  · intro m resource idx ts hidx h
    have h' : buildTS w (spendRows m idx) (fun col => col) = some ts := by
      have : resource_spend_timeseries m resource w =
          .ok (buildTS w (spendRows m idx) (fun col => col)) := by
        unfold resource_spend_timeseries
        rw [hidx]
      rw [this] at h
      exact Except.ok.inj h
    exact buildTS_shape w hw _ _ (fun l => rfl) ts h'
  · intro m resource idx startAt ts hidx h
    have h' : buildTS w (balanceRows m idx)
        (fun col => (cumsum col).map (fun b => b + startAt)) = some ts := by
      have : resource_balance_timeseries m resource w startAt =
          .ok (buildTS w (balanceRows m idx)
            (fun col => (cumsum col).map (fun b => b + startAt))) := by
        unfold resource_balance_timeseries
        rw [hidx]
      rw [this] at h
      exact Except.ok.inj h
    exact buildTS_shape w hw _ _
      (fun l => by simp [cumsum_length]) ts h'
  · intro m cumulative ts h
    refine buildTS_shape w hw _ _ (fun l => ?_) ts h
    cases cumulative <;> simp [cumsum_length]
  · intro m pattern base gapThr ts h
    unfold tc_idle_cumulative_timeseries at h
    cases hgo : tcIdleCumGo pattern base gapThr
        ⟨initMap m.players [], initMap m.players none⟩ m.actions with
    | error e => rw [hgo] at h; exact absurd h (by simp [Except.map])
    | ok st =>
      rw [hgo] at h
      simp only [Except.map] at h
      have h' := Except.ok.inj h
      have htimes : idleIncTimes m pattern base gapThr =
          st.incs.flatMap (fun e => e.2.map (fun r => r.1)) := by
        unfold idleIncTimes
        rw [hgo]
      cases hat : st.incs.flatMap (fun e => e.2.map (fun r => r.1)) with
      | nil => rw [hat] at h'; exact absurd h' (by simp)
      | cons t rest =>
        rw [hat] at h'
        simp only at h'
        have hts := Option.some.inj h'
        rw [htimes, hat]
        constructor
        · rw [← hts]
          simp [numWindows_eq_ceil _ _ hw]
        · intro pc hpc
          rw [← hts] at hpc
          simp only [List.mem_filterMap] at hpc
          obtain ⟨e, _, he⟩ := hpc
          by_cases hemp : e.2.isEmpty
          · rw [if_pos hemp] at he; cases he
          · rw [if_neg hemp] at he
            cases he
            simp [cumColumn_length, numWindows_eq_ceil _ _ hw]

/-- Witness for C1: the `apm_timeseries` conjunct instantiated on `exSpendM`
with window width 10 produces the two-window index `[0, 10]`. -/
theorem windowed_series_shape_witness :
    [(0 : ℚ), 10] =
      windowStarts ((⌈seriesMaxT (apmRows exSpendM) / (10 : ℚ)⌉).toNat) 10 := by
  have h := (windowed_series_shape 10 (by norm_num)).1 exSpendM
    ⟨[0, 10], [(1, [0, 12])]⟩ (by with_unfolding_all decide)
  exact h.1

theorem initMap_flatMap_nil (players : List Player) :
    (initMap players ([] : List (ℚ × ℚ))).flatMap
      (fun e => e.2.map (fun r => r.1)) = [] := by
  unfold initMap
  induction dedupNums (players.map (fun p => p.number)) with
  | nil => rfl
  | cons k ks ih => simp [ih]

/-- C8 (amended): feeding an empty action list to the six action-driven
windowing functions yields the documented no-data marker (the empty
DataFrame, modelled `none`) without raising; `resource_cumulative_timeseries`
does NOT — it ignores the action stream and, for any supported resource,
always returns a well-formed series derived from the match duration and the
postgame totals. -/
theorem empty_actions_no_data (m : GameMatch) (h : m.actions = []) :
    (∀ w, apm_timeseries m w = none) ∧
    (∀ pattern w, unit_created_timeseries m pattern w = none) ∧
    (∀ pattern (w : ℕ) (base gapThr : ℚ),
      tc_idle_cumulative_timeseries m pattern w base gapThr = .ok none) ∧
    (∀ resource idx (w : ℕ), resIdx (pyLower resource) = some idx →
      resource_spend_timeseries m resource w = .ok none) ∧
    (∀ resource idx (w : ℕ) (startAt : ℚ), resIdx (pyLower resource) = some idx →
      resource_balance_timeseries m resource w startAt = .ok none) ∧
    (∀ (w : ℕ) cumulative, total_spend_timeseries m w cumulative = none) ∧
    (∀ totals resource (w : ℕ),
      pyLower resource ∈ ["food", "wood", "gold", "stone"] →
      ∃ ts, resource_cumulative_timeseries m totals resource w = .ok ts) := by
  have hdelta : deltaRows m = [] := by simp [deltaRows, h]
  refine ⟨?_, ?_, ?_, ?_, ?_, ?_, ?_⟩
  · intro w
    simp [apm_timeseries, apmRows, h, buildTS]
  · intro pattern w
    simp [unit_created_timeseries, unitCreatedRows, h, buildTS]
  · intro pattern w base gapThr
    unfold tc_idle_cumulative_timeseries
    rw [h]
    simp only [tcIdleCumGo, Except.map]
    rw [initMap_flatMap_nil]
  · intro resource idx w hidx
    unfold resource_spend_timeseries
    rw [hidx]
    simp [spendRows, hdelta, buildTS]
  · intro resource idx w startAt hidx
    unfold resource_balance_timeseries
    rw [hidx]
    simp [balanceRows, hdelta, buildTS]
  · intro w cumulative
    simp [total_spend_timeseries, totalSpendRows, hdelta, buildTS]
  · intro totals resource w hmem
    have hcond := (resSupported_iff (pyLower resource)).mpr hmem
    exact ⟨_, by unfold resource_cumulative_timeseries; rw [if_pos hcond]⟩

/-- Witness for C8 (amended) on `exEmptyM`. -/
theorem empty_actions_no_data_witness : apm_timeseries exEmptyM 7 = none :=
  (empty_actions_no_data exEmptyM rfl).1 7



theorem samePL_iff (a b : Event) : samePL a b = true ↔ evKey a = evKey b := by
  simp [samePL, evKey, Prod.ext_iff]

theorem dedupPLGo_sublist : ∀ (l : List Event) (seen : List (ℤ × String)),
    (dedupPLGo seen l).Sublist l := by
  intro l
  induction l with
  | nil => intro seen; simp [dedupPLGo]
  | cons r rs ih =>
    intro seen
    unfold dedupPLGo
    by_cases hc : seen.contains (r.2.1, r.2.2.1) = true
    · rw [if_pos hc]
      exact (ih seen).cons r
    · rw [if_neg hc]
      exact (ih _).cons₂ r

theorem dedupPLGo_key_not_seen : ∀ (l : List Event) (seen : List (ℤ × String))
    (r : Event), r ∈ dedupPLGo seen l → evKey r ∉ seen := by
  intro l
  induction l with
  | nil => intro seen r hr; simp [dedupPLGo] at hr
  | cons x xs ih =>
    intro seen r hr
    unfold dedupPLGo at hr
    by_cases hc : seen.contains (x.2.1, x.2.2.1) = true
    · rw [if_pos hc] at hr
      exact ih seen r hr
    · rw [if_neg hc] at hr
      rcases List.mem_cons.mp hr with rfl | hr'
      · intro hmem
        exact hc (by simpa [evKey] using hmem)
      · have := ih _ r hr'
        intro hmem
        exact this (List.mem_cons_of_mem _ hmem)

theorem dedupPLGo_pairwise : ∀ (l : List Event) (seen : List (ℤ × String)),
    List.Pairwise (fun a b => samePL a b = false) (dedupPLGo seen l) := by
  intro l
  induction l with
  | nil => intro seen; simp [dedupPLGo]
  | cons x xs ih =>
    intro seen
    unfold dedupPLGo
    by_cases hc : seen.contains (x.2.1, x.2.2.1) = true
    · rw [if_pos hc]
      exact ih seen
    · rw [if_neg hc]
      refine List.Pairwise.cons ?_ (ih _)
      intro b hb
      have hkey := dedupPLGo_key_not_seen xs _ b hb
      have hne : evKey x ≠ evKey b := by
        intro he
        exact hkey (by rw [← he, evKey]; exact List.mem_cons_self _ _)
      rcases h : samePL x b with _ | _
      · rfl
      · exact absurd ((samePL_iff x b).mp h) hne

theorem dedupPLGo_min : ∀ (l : List Event) (seen : List (ℤ × String)),
    List.Pairwise evLE l →
    ∀ r ∈ dedupPLGo seen l, ∀ r' ∈ l, samePL r r' = true → r.1 ≤ r'.1 := by
  intro l
  induction l with
  | nil => intro seen _ r hr; simp [dedupPLGo] at hr
  | cons x xs ih =>
    intro seen hsorted r hr r' hr' hsame
    obtain ⟨hx, hxs⟩ := List.pairwise_cons.mp hsorted
    unfold dedupPLGo at hr
    by_cases hc : seen.contains (x.2.1, x.2.2.1) = true
    · rw [if_pos hc] at hr
      rcases List.mem_cons.mp hr' with rfl | hr''
      · have hkey := dedupPLGo_key_not_seen xs seen r hr
        have : evKey r = evKey r' := (samePL_iff r r').mp hsame
        have hx_seen : evKey r' ∈ seen := by simpa [evKey] using hc
        rw [this] at hkey
        exact absurd hx_seen hkey
      · exact ih seen hxs r hr r' hr'' hsame
    · rw [if_neg hc] at hr
      rcases List.mem_cons.mp hr with rfl | hrest
      · rcases List.mem_cons.mp hr' with rfl | hr''
        · exact le_refl _
        · exact hx r' hr''
      · rcases List.mem_cons.mp hr' with rfl | hr''
        · have hkey := dedupPLGo_key_not_seen xs _ r hrest
          have : evKey r = evKey r' := (samePL_iff r r').mp hsame
          exact absurd (by rw [this, evKey]; exact List.mem_cons_self _ _) hkey
        · exact ih _ hxs r hrest r' hr'' hsame

/-- C6: in the list returned by `important_events` each `(player, label)`
pair appears at most once, rows are sorted by time ascending, every retained
row is an original occurrence carrying the minimum timestamp among all
occurrences of its `(player, label)` pair, and concretely two duplicate
"Feudal Age" researches by one player yield the single `age` event with the
earlier timestamp. -/
theorem important_events_dedup_sorted :
    (∀ m : GameMatch,
      List.Pairwise (fun a b => samePL a b = false) (important_events m) ∧
      List.Pairwise evLE (important_events m) ∧
      ∀ r ∈ important_events m, r ∈ importantEventsRows m ∧
        ∀ r' ∈ importantEventsRows m, samePL r r' = true → r.1 ≤ r'.1) ∧
    important_events exFeudalM = [(120, 1, "Feudal Age", "age")] := by
  constructor
  · intro m
    have hsorted : List.Pairwise evLE (List.insertionSort evLE (importantEventsRows m)) :=
      List.sorted_insertionSort evLE (importantEventsRows m)
    have hperm : (List.insertionSort evLE (importantEventsRows m)).Perm
        (importantEventsRows m) := List.perm_insertionSort evLE _
    refine ⟨dedupPLGo_pairwise _ [], ?_, ?_⟩
    · exact List.Pairwise.sublist (dedupPLGo_sublist _ []) hsorted
    · intro r hr
      have hrs : r ∈ List.insertionSort evLE (importantEventsRows m) :=
        (dedupPLGo_sublist _ []).mem hr
      refine ⟨hperm.mem_iff.mp hrs, ?_⟩
      intro r' hr' hsame
      exact dedupPLGo_min _ [] hsorted r hr r' (hperm.mem_iff.mpr hr') hsame
  · with_unfolding_all decide

/-- Witness for C6: the min-timestamp property applied to the retained
Feudal Age row of `exFeudalM` against its duplicate occurrence at t = 300. -/
theorem important_events_dedup_sorted_witness :
    ((120 : ℚ), (1 : ℤ), "Feudal Age", "age").1 ≤
      ((300 : ℚ), (1 : ℤ), "Feudal Age", "age").1 := by
  have h := (important_events_dedup_sorted.1 exFeudalM).2.2
    (120, 1, "Feudal Age", "age")
    (by rw [important_events_dedup_sorted.2]; exact List.mem_cons_self _ _)
  exact h.2 (300, 1, "Feudal Age", "age") (by with_unfolding_all decide)
    (by with_unfolding_all decide)



theorem keysOf_mapSet (d : List (ℤ × α)) (k : ℤ) (v : α) :
    keysOf (mapSet d k v) = keysOf d := by
  induction d with
  | nil => rfl
  | cons e es ih =>
    unfold keysOf mapSet at *
    simp only [List.map_cons]
    refine congrArg₂ List.cons ?_ ih
    by_cases h : (e.1 == k) = true
    · rw [if_pos h]
    · rw [if_neg h]

theorem mapGet?_eq_none_iff (d : List (ℤ × α)) (k : ℤ) :
    mapGet? d k = none ↔ k ∉ keysOf d := by
  unfold mapGet? keysOf
  rw [Option.map_eq_none', List.find?_eq_none]
  constructor
  · intro h hk
    obtain ⟨e, he, hek⟩ := List.mem_map.mp hk
    exact (h e he) (by simp [hek])
  · intro h e he hbeq
    exact h (List.mem_map.mpr ⟨e, he, by simpa using hbeq⟩)

theorem mapGet?_some_of_mem (d : List (ℤ × α)) (k : ℤ) (h : k ∈ keysOf d) :
    ∃ v, mapGet? d k = some v := by
  cases hg : mapGet? d k with
  | none => exact absurd ((mapGet?_eq_none_iff d k).mp hg) (by simpa using h)
  | some v => exact ⟨v, rfl⟩

theorem mapGet?_mem_of_some (d : List (ℤ × α)) (k : ℤ) (v : α)
    (h : mapGet? d k = some v) : k ∈ keysOf d := by
  by_contra hk
  rw [← mapGet?_eq_none_iff] at hk
  rw [h] at hk
  cases hk

theorem keysOf_initMap (players : List Player) (v : α) :
    keysOf (initMap players v) = dedupNums (players.map (fun p => p.number)) := by
  unfold keysOf initMap
  have hcomp : ((fun e : ℤ × α => e.1) ∘ fun k : ℤ => (k, v)) = id := rfl
  rw [List.map_map, hcomp, List.map_id]

theorem mem_dedupNumsGo : ∀ (l : List ℤ) (seen : List ℤ) (x : ℤ),
    x ∈ dedupNumsGo seen l ↔ x ∈ l ∧ x ∉ seen := by
  intro l
  induction l with
  | nil => intro seen x; simp [dedupNumsGo]
  | cons y ys ih =>
    intro seen x
    unfold dedupNumsGo
    by_cases hc : seen.contains y = true
    · rw [if_pos hc]
      rw [ih]
      have hy : y ∈ seen := by simpa using hc
      constructor
      · rintro ⟨hmem, hns⟩
        exact ⟨List.mem_cons_of_mem _ hmem, hns⟩
      · rintro ⟨hmem, hns⟩
        rcases List.mem_cons.mp hmem with rfl | hmem'
        · exact absurd hy hns
        · exact ⟨hmem', hns⟩
    · rw [if_neg hc]
      have hy : y ∉ seen := by simpa using hc
      constructor
      · intro hmem
        rcases List.mem_cons.mp hmem with rfl | hmem'
        · exact ⟨List.mem_cons_self _ _, hy⟩
        · obtain ⟨h1, h2⟩ := (ih _ x).mp hmem'
          exact ⟨List.mem_cons_of_mem _ h1,
            fun hx => h2 (List.mem_cons_of_mem _ hx)⟩
      · rintro ⟨hmem, hns⟩
        rcases List.mem_cons.mp hmem with rfl | hmem'
        · exact List.mem_cons_self _ _
        · by_cases hxy : x = y
          · subst hxy; exact List.mem_cons_self _ _
          · refine List.mem_cons_of_mem _ ((ih _ x).mpr ⟨hmem', ?_⟩)
            intro hx
            rcases List.mem_cons.mp hx with h | h
            · exact hxy h
            · exact hns h

theorem mem_dedupNums (l : List ℤ) (x : ℤ) : x ∈ dedupNums l ↔ x ∈ l := by
  unfold dedupNums
  rw [mem_dedupNumsGo]
  simp

theorem villagerCountsGo_ok (pattern : String → Bool) :
    ∀ (acts : List Action) (counts : List (ℤ × ℤ)),
    (∀ act ∈ acts, isProdEvent act.typeName = true →
      payloadMatches act.payload pattern = true →
      ∀ p : Player, act.player = some p → p.number ∈ keysOf counts) →
    ∃ v, villagerCountsGo pattern counts acts = .ok v := by
  intro acts
  induction acts with
  | nil => intro counts _; exact ⟨counts, rfl⟩
  | cons act rest ih =>
    intro counts hcond
    have htail : ∀ a ∈ rest, isProdEvent a.typeName = true →
        payloadMatches a.payload pattern = true →
        ∀ p : Player, a.player = some p → p.number ∈ keysOf counts :=
      fun a ha => hcond a (List.mem_cons_of_mem _ ha)
    unfold villagerCountsGo
    cases hprod : isProdEvent act.typeName with
    | false =>
      simp only [hprod, Bool.not_false, if_true]
      exact ih counts htail
    | true =>
      cases hmatch : payloadMatches act.payload pattern with
      | false =>
        simp only [hprod, hmatch, Bool.not_true, Bool.not_false,
          Bool.false_eq_true, if_false, if_true]
        exact ih counts htail
      | true =>
        simp only [hprod, hmatch, Bool.not_true, Bool.false_eq_true, if_false]
        cases hp : act.player with
        | none => exact ih counts htail
        | some p =>
          have hmem := hcond act (List.mem_cons_self _ _) hprod hmatch p hp
          obtain ⟨c, hc⟩ := mapGet?_some_of_mem counts p.number hmem
          dsimp only
          rw [hc]
          refine ih _ ?_
          intro a ha h1 h2 q hq
          rw [keysOf_mapSet]
          exact htail a ha h1 h2 q hq

theorem villagerCountsGo_err (pattern : String → Bool) :
    ∀ (acts : List Action) (counts : List (ℤ × ℤ)),
    (∃ act ∈ acts, isProdEvent act.typeName = true ∧
      payloadMatches act.payload pattern = true ∧
      ∃ p : Player, act.player = some p ∧ p.number ∉ keysOf counts) →
    villagerCountsGo pattern counts acts = .error "KeyError" := by
  intro acts
  induction acts with
  | nil => rintro counts ⟨a, ha, _⟩; simp at ha
  | cons act rest ih =>
    rintro counts ⟨a, ha, hprodA, hmatchA, p, hpA, hnotA⟩
    unfold villagerCountsGo
    cases hprod : isProdEvent act.typeName with
    | false =>
      simp only [hprod, Bool.not_false, if_true]
      refine ih counts ⟨a, ?_, hprodA, hmatchA, p, hpA, hnotA⟩
      rcases List.mem_cons.mp ha with rfl | h
      · rw [hprodA] at hprod; cases hprod
      · exact h
    | true =>
      cases hmatch : payloadMatches act.payload pattern with
      | false =>
        simp only [hprod, hmatch, Bool.not_true, Bool.not_false,
          Bool.false_eq_true, if_false, if_true]
        refine ih counts ⟨a, ?_, hprodA, hmatchA, p, hpA, hnotA⟩
        rcases List.mem_cons.mp ha with rfl | h
        · rw [hmatchA] at hmatch; cases hmatch
        · exact h
      | true =>
        simp only [hprod, hmatch, Bool.not_true, Bool.false_eq_true, if_false]
        cases hp : act.player with
        | none =>
          refine ih counts ⟨a, ?_, hprodA, hmatchA, p, hpA, hnotA⟩
          rcases List.mem_cons.mp ha with rfl | h
          · rw [hpA] at hp; cases hp
          · exact h
        | some q =>
          dsimp only
          cases hg : mapGet? counts q.number with
          | none => rfl
          | some c =>
            have hqmem := mapGet?_mem_of_some counts q.number c hg
            refine ih _ ⟨a, ?_, hprodA, hmatchA, p, hpA, ?_⟩
            · rcases List.mem_cons.mp ha with rfl | h
              · rw [hpA] at hp
                cases hp
                exact absurd hqmem hnotA
              · exact h
            · rw [keysOf_mapSet]
              exact hnotA

theorem tcIdleGo_ok (pattern : String → Bool) (base gapThr : ℚ) :
    ∀ (acts : List Action) (st : IdleState),
    keysOf st.idle = keysOf st.last →
    (∀ act ∈ acts, isProdEvent act.typeName = true →
      payloadMatches act.payload pattern = true →
      ∀ p : Player, act.player = some p → p.number ∈ keysOf st.last) →
    ∃ v, tcIdleGo pattern base gapThr st acts = .ok v := by
  intro acts
  induction acts with
  | nil => intro st _ _; exact ⟨st, rfl⟩
  | cons act rest ih =>
    intro st hinv hcond
    have htail : ∀ a ∈ rest, isProdEvent a.typeName = true →
        payloadMatches a.payload pattern = true →
        ∀ p : Player, a.player = some p → p.number ∈ keysOf st.last :=
      fun a ha => hcond a (List.mem_cons_of_mem _ ha)
    unfold tcIdleGo
    cases hprod : isProdEvent act.typeName with
    | false =>
      simp only [hprod, Bool.not_false, if_true]
      exact ih st hinv htail
    | true =>
      cases hmatch : payloadMatches act.payload pattern with
      | false =>
        simp only [hprod, hmatch, Bool.not_true, Bool.not_false,
          Bool.false_eq_true, if_false, if_true]
        exact ih st hinv htail
      | true =>
        simp only [hprod, hmatch, Bool.not_true, Bool.false_eq_true, if_false]
        cases hp : act.player with
        | none => exact ih st hinv htail
        | some p =>
          have hmem := hcond act (List.mem_cons_self _ _) hprod hmatch p hp
          obtain ⟨lastv, hl⟩ := mapGet?_some_of_mem st.last p.number hmem
          dsimp only
          rw [hl]
          cases lastv with
          | none =>
            dsimp only
            refine ih _ ?_ ?_
            · simp only [keysOf_mapSet]; exact hinv
            · intro a ha h1 h2 q hq
              simp only [keysOf_mapSet]
              exact htail a ha h1 h2 q hq
          | some lt =>
            dsimp only
            by_cases hgap : act.timestamp - lt > gapThr
            · rw [if_pos hgap]
              have hmemI : p.number ∈ keysOf st.idle := by rw [hinv]; exact hmem
              obtain ⟨iv, hi⟩ := mapGet?_some_of_mem st.idle p.number hmemI
              rw [hi]
              refine ih _ ?_ ?_
              · simp only [keysOf_mapSet]; exact hinv
              · intro a ha h1 h2 q hq
                simp only [keysOf_mapSet]
                exact htail a ha h1 h2 q hq
            · rw [if_neg hgap]
              refine ih _ ?_ ?_
              · simp only [keysOf_mapSet]; exact hinv
              · intro a ha h1 h2 q hq
                simp only [keysOf_mapSet]
                exact htail a ha h1 h2 q hq

theorem tcIdleGo_err (pattern : String → Bool) (base gapThr : ℚ) :
    ∀ (acts : List Action) (st : IdleState),
    (∃ act ∈ acts, isProdEvent act.typeName = true ∧
      payloadMatches act.payload pattern = true ∧
      ∃ p : Player, act.player = some p ∧ p.number ∉ keysOf st.last) →
    tcIdleGo pattern base gapThr st acts = .error "KeyError" := by
  intro acts
  induction acts with
  | nil => rintro st ⟨a, ha, _⟩; simp at ha
  | cons act rest ih =>
    rintro st ⟨a, ha, hprodA, hmatchA, p, hpA, hnotA⟩
    unfold tcIdleGo
    cases hprod : isProdEvent act.typeName with
    | false =>
      simp only [hprod, Bool.not_false, if_true]
      refine ih st ⟨a, ?_, hprodA, hmatchA, p, hpA, hnotA⟩
      rcases List.mem_cons.mp ha with rfl | h
      · rw [hprodA] at hprod; cases hprod
      · exact h
    | true =>
      cases hmatch : payloadMatches act.payload pattern with
      | false =>
        simp only [hprod, hmatch, Bool.not_true, Bool.not_false,
          Bool.false_eq_true, if_false, if_true]
        refine ih st ⟨a, ?_, hprodA, hmatchA, p, hpA, hnotA⟩
        rcases List.mem_cons.mp ha with rfl | h
        · rw [hmatchA] at hmatch; cases hmatch
        · exact h
      | true =>
        simp only [hprod, hmatch, Bool.not_true, Bool.false_eq_true, if_false]
        cases hp : act.player with
        | none =>
          refine ih st ⟨a, ?_, hprodA, hmatchA, p, hpA, hnotA⟩
          rcases List.mem_cons.mp ha with rfl | h
          · rw [hpA] at hp; cases hp
          · exact h
        | some q =>
          dsimp only
          cases hg : mapGet? st.last q.number with
          | none => rfl
          | some lastv =>
            have hqmem := mapGet?_mem_of_some st.last q.number lastv hg
            have hrest : a ∈ rest := by
              rcases List.mem_cons.mp ha with rfl | h
              · rw [hpA] at hp
                cases hp
                exact absurd hqmem hnotA
              · exact h
            cases lastv with
            | none =>
              dsimp only
              refine ih _ ⟨a, hrest, hprodA, hmatchA, p, hpA, ?_⟩
              simp only [keysOf_mapSet]
              exact hnotA
            | some lt =>
              dsimp only
              by_cases hgap : act.timestamp - lt > gapThr
              · rw [if_pos hgap]
                cases hgi : mapGet? st.idle q.number with
                | none => rfl
                | some iv =>
                  refine ih _ ⟨a, hrest, hprodA, hmatchA, p, hpA, ?_⟩
                  simp only [keysOf_mapSet]
                  exact hnotA
              · rw [if_neg hgap]
                refine ih _ ⟨a, hrest, hprodA, hmatchA, p, hpA, ?_⟩
                simp only [keysOf_mapSet]
                exact hnotA

theorem tcIdleCumGo_ok (pattern : String → Bool) (base gapThr : ℚ) :
    ∀ (acts : List Action) (st : CumState),
    keysOf st.incs = keysOf st.last →
    (∀ act ∈ acts, isProdEvent act.typeName = true →
      payloadMatches act.payload pattern = true →
      ∀ p : Player, act.player = some p → p.number ∈ keysOf st.last) →
    ∃ v, tcIdleCumGo pattern base gapThr st acts = .ok v := by
  intro acts
  induction acts with
  | nil => intro st _ _; exact ⟨st, rfl⟩
  | cons act rest ih =>
    intro st hinv hcond
    have htail : ∀ a ∈ rest, isProdEvent a.typeName = true →
        payloadMatches a.payload pattern = true →
        ∀ p : Player, a.player = some p → p.number ∈ keysOf st.last :=
      fun a ha => hcond a (List.mem_cons_of_mem _ ha)
    unfold tcIdleCumGo
    cases hprod : isProdEvent act.typeName with
    | false =>
      simp only [hprod, Bool.not_false, if_true]
      exact ih st hinv htail
    | true =>
      cases hmatch : payloadMatches act.payload pattern with
      | false =>
        simp only [hprod, hmatch, Bool.not_true, Bool.not_false,
          Bool.false_eq_true, if_false, if_true]
        exact ih st hinv htail
      | true =>
        simp only [hprod, hmatch, Bool.not_true, Bool.false_eq_true, if_false]
        cases hp : act.player with
        | none => exact ih st hinv htail
        | some p =>
          have hmem := hcond act (List.mem_cons_self _ _) hprod hmatch p hp
          obtain ⟨lastv, hl⟩ := mapGet?_some_of_mem st.last p.number hmem
          dsimp only
          rw [hl]
          cases lastv with
          | none =>
            dsimp only
            refine ih _ ?_ ?_
            · simp only [keysOf_mapSet]; exact hinv
            · intro a ha h1 h2 q hq
              simp only [keysOf_mapSet]
              exact htail a ha h1 h2 q hq
          | some lt =>
            dsimp only
            by_cases hgap : act.timestamp - lt > gapThr
            · rw [if_pos hgap]
              have hmemI : p.number ∈ keysOf st.incs := by rw [hinv]; exact hmem
              obtain ⟨pairs, hi⟩ := mapGet?_some_of_mem st.incs p.number hmemI
              rw [hi]
              refine ih _ ?_ ?_
              · simp only [keysOf_mapSet]; exact hinv
              · intro a ha h1 h2 q hq
                simp only [keysOf_mapSet]
                exact htail a ha h1 h2 q hq
            · rw [if_neg hgap]
              refine ih _ ?_ ?_
              · simp only [keysOf_mapSet]; exact hinv
              · intro a ha h1 h2 q hq
                simp only [keysOf_mapSet]
                exact htail a ha h1 h2 q hq

theorem tcIdleCumGo_err (pattern : String → Bool) (base gapThr : ℚ) :
    ∀ (acts : List Action) (st : CumState),
    (∃ act ∈ acts, isProdEvent act.typeName = true ∧
      payloadMatches act.payload pattern = true ∧
      ∃ p : Player, act.player = some p ∧ p.number ∉ keysOf st.last) →
    tcIdleCumGo pattern base gapThr st acts = .error "KeyError" := by
  intro acts
  induction acts with
  | nil => rintro st ⟨a, ha, _⟩; simp at ha
  | cons act rest ih =>
    rintro st ⟨a, ha, hprodA, hmatchA, p, hpA, hnotA⟩
    unfold tcIdleCumGo
    cases hprod : isProdEvent act.typeName with
    | false =>
      simp only [hprod, Bool.not_false, if_true]
      refine ih st ⟨a, ?_, hprodA, hmatchA, p, hpA, hnotA⟩
      rcases List.mem_cons.mp ha with rfl | h
      · rw [hprodA] at hprod; cases hprod
      · exact h
    | true =>
      cases hmatch : payloadMatches act.payload pattern with
      | false =>
        simp only [hprod, hmatch, Bool.not_true, Bool.not_false,
          Bool.false_eq_true, if_false, if_true]
        refine ih st ⟨a, ?_, hprodA, hmatchA, p, hpA, hnotA⟩
        rcases List.mem_cons.mp ha with rfl | h
        · rw [hmatchA] at hmatch; cases hmatch
        · exact h
      | true =>
        simp only [hprod, hmatch, Bool.not_true, Bool.false_eq_true, if_false]
        cases hp : act.player with
        | none =>
          refine ih st ⟨a, ?_, hprodA, hmatchA, p, hpA, hnotA⟩
          rcases List.mem_cons.mp ha with rfl | h
          · rw [hpA] at hp; cases hp
          · exact h
        | some q =>
          dsimp only
          cases hg : mapGet? st.last q.number with
          | none => rfl
          | some lastv =>
            have hqmem := mapGet?_mem_of_some st.last q.number lastv hg
            have hrest : a ∈ rest := by
              rcases List.mem_cons.mp ha with rfl | h
              · rw [hpA] at hp
                cases hp
                exact absurd hqmem hnotA
              · exact h
            cases lastv with
            | none =>
              dsimp only
              refine ih _ ⟨a, hrest, hprodA, hmatchA, p, hpA, ?_⟩
              simp only [keysOf_mapSet]
              exact hnotA
            | some lt =>
              dsimp only
              by_cases hgap : act.timestamp - lt > gapThr
              · rw [if_pos hgap]
                cases hgi : mapGet? st.incs q.number with
                | none => rfl
                | some pairs =>
                  refine ih _ ⟨a, hrest, hprodA, hmatchA, p, hpA, ?_⟩
                  simp only [keysOf_mapSet]
                  exact hnotA
              · rw [if_neg hgap]
                refine ih _ ⟨a, hrest, hprodA, hmatchA, p, hpA, ?_⟩
                simp only [keysOf_mapSet]
                exact hnotA

/-- C9: `villager_counts`, `tc_idle_time` and `tc_idle_cumulative_timeseries`
key their per-player accumulators only by the numbers in `match.players`:
when every pattern-matching production event is attributed to a player whose
number appears there, all three complete without failure (the missing-key
branch is unreachable); when some matching production event is attributed to
a foreign player number, all three fail with the `KeyError` instead of
returning a result. -/
theorem player_accumulator_key_safety (m : GameMatch) (pattern : String → Bool)
    (base gapThr : ℚ) (w : ℕ) :
    ((∀ act ∈ m.actions, isProdEvent act.typeName = true →
        payloadMatches act.payload pattern = true →
        ∀ p : Player, act.player = some p →
          p.number ∈ m.players.map (fun q => q.number)) →
      (∃ v, villager_counts m pattern = .ok v) ∧
      (∃ v, tc_idle_time m pattern base gapThr = .ok v) ∧
      (∃ v, tc_idle_cumulative_timeseries m pattern w base gapThr = .ok v)) ∧
    ((∃ act ∈ m.actions, isProdEvent act.typeName = true ∧
        payloadMatches act.payload pattern = true ∧
        ∃ p : Player, act.player = some p ∧
          p.number ∉ m.players.map (fun q => q.number)) →
      villager_counts m pattern = .error "KeyError" ∧
      tc_idle_time m pattern base gapThr = .error "KeyError" ∧
      tc_idle_cumulative_timeseries m pattern w base gapThr =
        .error "KeyError") := by
  have hmemIff : ∀ {β : Type} (x : ℤ) (v : β),
      x ∈ keysOf (initMap m.players v) ↔
        x ∈ m.players.map (fun q => q.number) := by
    intro β x v
    rw [keysOf_initMap, mem_dedupNums]
  constructor
  · intro hcond
    refine ⟨?_, ?_, ?_⟩
    · exact villagerCountsGo_ok pattern m.actions (initMap m.players 0)
        (fun a ha h1 h2 p hp =>
          (hmemIff p.number 0).mpr (hcond a ha h1 h2 p hp))
    · obtain ⟨st', hst⟩ := tcIdleGo_ok pattern base gapThr m.actions
        ⟨initMap m.players 0, initMap m.players none⟩
        (by
          show keysOf (initMap m.players (0 : ℚ)) =
            keysOf (initMap m.players (none : Option ℚ))
          rw [keysOf_initMap, keysOf_initMap])
        (fun a ha h1 h2 p hp =>
          (hmemIff p.number (none : Option ℚ)).mpr (hcond a ha h1 h2 p hp))
      exact ⟨st'.idle, by unfold tc_idle_time; rw [hst]; rfl⟩
    · obtain ⟨st', hst⟩ := tcIdleCumGo_ok pattern base gapThr m.actions
        ⟨initMap m.players [], initMap m.players none⟩
        (by
          show keysOf (initMap m.players ([] : List (ℚ × ℚ))) =
            keysOf (initMap m.players (none : Option ℚ))
          rw [keysOf_initMap, keysOf_initMap])
        (fun a ha h1 h2 p hp =>
          (hmemIff p.number (none : Option ℚ)).mpr (hcond a ha h1 h2 p hp))
      exact ⟨_, by unfold tc_idle_cumulative_timeseries; rw [hst]; rfl⟩
  · rintro ⟨a, ha, h1, h2, p, hp, hnot⟩
    refine ⟨?_, ?_, ?_⟩
    · exact villagerCountsGo_err pattern m.actions (initMap m.players 0)
        ⟨a, ha, h1, h2, p, hp, fun hmem => hnot ((hmemIff p.number 0).mp hmem)⟩
    · have herr := tcIdleGo_err pattern base gapThr m.actions
        ⟨initMap m.players 0, initMap m.players none⟩
        ⟨a, ha, h1, h2, p, hp,
          fun hmem => hnot ((hmemIff p.number (none : Option ℚ)).mp hmem)⟩
      unfold tc_idle_time
      rw [herr]
      rfl
    · have herr := tcIdleCumGo_err pattern base gapThr m.actions
        ⟨initMap m.players [], initMap m.players none⟩
        ⟨a, ha, h1, h2, p, hp,
          fun hmem => hnot ((hmemIff p.number (none : Option ℚ)).mp hmem)⟩
      unfold tc_idle_cumulative_timeseries
      rw [herr]
      rfl

/-- Witness for C9 on `exSpendM`: every matching production event is
attributed to player 1, who is in the player list, so `villager_counts`
succeeds. -/
theorem player_accumulator_key_safety_witness :
    ∃ v, villager_counts exSpendM (fun _ => true) = .ok v := by
  have hcond : ∀ act ∈ exSpendM.actions, isProdEvent act.typeName = true →
      payloadMatches act.payload (fun _ => true) = true →
      ∀ p : Player, act.player = some p →
        p.number ∈ exSpendM.players.map (fun q => q.number) := by
    intro act ha _ _ p hp
    rcases List.mem_cons.mp ha with rfl | ha'
    · have hp1 : p = ⟨1⟩ := (Option.some.inj hp).symm
      rw [hp1]
      simp [exSpendM]
    · rcases List.mem_cons.mp ha' with rfl | ha''
      · have hp1 : p = ⟨1⟩ := (Option.some.inj hp).symm
        rw [hp1]
        simp [exSpendM]
      · simp at ha''
  exact (player_accumulator_key_safety exSpendM (fun _ => true) 25 27 10).1
    hcond |>.1

theorem ffill_cumPairsFrom :
    ∀ (ps : List (ℚ × ℚ)) (acc cur b : ℚ), List.Pairwise pairLE ps →
    ffillFrom cur (cumPairsFrom acc ps) b =
      if ps.any (fun r => decide (r.1 ≤ b)) then
        acc + ((ps.filter (fun r => decide (r.1 ≤ b))).map (fun r => r.2)).sum
      else cur := by
  intro ps
  induction ps with
  | nil => intro acc cur b _; simp [cumPairsFrom, ffillFrom]
  | cons r rest ih =>
    intro acc cur b hsorted
    obtain ⟨hr_all, hrest⟩ := List.pairwise_cons.mp hsorted
    unfold cumPairsFrom ffillFrom
    by_cases hb : r.1 ≤ b
    · rw [if_pos hb, ih (acc + r.2) (acc + r.2) b hrest]
      by_cases hany : rest.any (fun r => decide (r.1 ≤ b)) = true
      · rw [if_pos hany]
        have : (r :: rest).any (fun r => decide (r.1 ≤ b)) = true := by
          simp [hb]
        rw [if_pos this]
        rw [List.filter_cons_of_pos (by simpa using hb)]
        simp only [List.map_cons, List.sum_cons]
        ring
      · rw [if_neg hany]
        have hfil : rest.filter (fun r => decide (r.1 ≤ b)) = [] := by
          rw [List.filter_eq_nil_iff]
          intro a ha
          simp only [decide_eq_true_eq]
          intro hab
          exact hany (List.any_eq_true.mpr ⟨a, ha, by simpa using hab⟩)
        have : (r :: rest).any (fun r => decide (r.1 ≤ b)) = true := by
          simp [hb]
        rw [if_pos this]
        rw [List.filter_cons_of_pos (by simpa using hb), hfil]
        simp
    · rw [if_neg hb, ih (acc + r.2) cur b hrest]
      have hany : rest.any (fun r => decide (r.1 ≤ b)) = false := by
        rw [List.any_eq_false]
        intro a ha
        simp only [decide_eq_true_eq]
        intro hab
        exact hb (le_trans (hr_all a ha) hab)
      rw [hany]
      have : (r :: rest).any (fun r => decide (r.1 ≤ b)) = false := by
        simp only [List.any_cons, hany, Bool.or_false]
        simpa using hb
      rw [this]
      simp

theorem cumColumn_getD (w nW : ℕ) (pairs : List (ℚ × ℚ)) (i : ℕ) (h : i < nW) :
    (cumColumn w nW pairs).getD i 0 =
      ((pairs.filter (fun r => decide (r.1 ≤ ((i * w : ℕ) : ℚ)))).map
        (fun r => r.2)).sum := by
  unfold cumColumn
  rw [range_map_getD _ _ _ _ h]
  unfold ffillAt cumPairs
  rw [ffill_cumPairsFrom _ 0 0 _ (List.sorted_insertionSort pairLE pairs)]
  have hperm : (List.insertionSort pairLE pairs).Perm pairs :=
    List.perm_insertionSort pairLE pairs
  have hsum :
      (((List.insertionSort pairLE pairs).filter
        (fun r => decide (r.1 ≤ ((i * w : ℕ) : ℚ)))).map (fun r => r.2)).sum =
      ((pairs.filter (fun r => decide (r.1 ≤ ((i * w : ℕ) : ℚ)))).map
        (fun r => r.2)).sum :=
    ((hperm.filter _).map _).sum_eq
  by_cases hany : (List.insertionSort pairLE pairs).any
      (fun r => decide (r.1 ≤ ((i * w : ℕ) : ℚ))) = true
  · rw [if_pos hany, hsum]
    ring
  · rw [if_neg hany]
    have hfil : (List.insertionSort pairLE pairs).filter
        (fun r => decide (r.1 ≤ ((i * w : ℕ) : ℚ))) = [] := by
      rw [List.filter_eq_nil_iff]
      intro a ha hdec
      exact hany (List.any_eq_true.mpr ⟨a, ha, hdec⟩)
    rw [← hsum, hfil]
    simp

theorem sum_filter_mono (l : List (ℚ × ℚ)) (p q : (ℚ × ℚ) → Bool)
    (himp : ∀ r, p r = true → q r = true) (hnn : ∀ r ∈ l, 0 ≤ r.2) :
    ((l.filter p).map (fun r => r.2)).sum ≤
      ((l.filter q).map (fun r => r.2)).sum := by
  induction l with
  | nil => simp
  | cons r rest ih =>
    have hnnr : 0 ≤ r.2 := hnn r (List.mem_cons_self _ _)
    have ihr := ih (fun a ha => hnn a (List.mem_cons_of_mem _ ha))
    by_cases hp : p r = true
    · rw [List.filter_cons_of_pos hp, List.filter_cons_of_pos (himp r hp)]
      simp only [List.map_cons, List.sum_cons]
      linarith
    · rw [List.filter_cons_of_neg (by simpa using hp)]
      by_cases hq : q r = true
      · rw [List.filter_cons_of_pos hq]
        simp only [List.map_cons, List.sum_cons]
        linarith
      · rw [List.filter_cons_of_neg (by simpa using hq)]
        exact ihr

theorem lt_of_lt_floor_div (t : ℚ) (w : ℕ) (hw : 0 < w) (i : ℕ)
    (h : (i : ℤ) < ⌊t / (w : ℚ)⌋) : ((i * w : ℕ) : ℚ) < t := by
  have hw' : (0 : ℚ) < (w : ℚ) := by exact_mod_cast hw
  have h1 : ((i : ℤ) + 1 : ℚ) ≤ t / (w : ℚ) := by
    have := Int.le_floor.mp h
    calc ((i : ℤ) + 1 : ℚ) ≤ (⌊t / (w : ℚ)⌋ : ℚ) := by exact_mod_cast h
      _ ≤ t / (w : ℚ) := Int.floor_le _
  have h2 : ((i : ℚ) + 1) * w ≤ t := by
    have := mul_le_mul_of_nonneg_right h1 (le_of_lt hw')
    rw [div_mul_cancel₀ _ (ne_of_gt hw')] at this
    push_cast at this ⊢
    linarith
  push_cast
  nlinarith

theorem le_of_floor_div_lt (t : ℚ) (w : ℕ) (hw : 0 < w) (i : ℕ)
    (h : ⌊t / (w : ℚ)⌋ < (i : ℤ)) : t ≤ ((i * w : ℕ) : ℚ) := by
  have hw' : (0 : ℚ) < (w : ℚ) := by exact_mod_cast hw
  have h1 : t / (w : ℚ) < (i : ℚ) := by
    calc t / (w : ℚ) < (⌊t / (w : ℚ)⌋ : ℚ) + 1 := Int.lt_floor_add_one _
      _ ≤ (i : ℚ) := by exact_mod_cast h
  have h2 : t < (i : ℚ) * w := by
    have := mul_lt_mul_of_pos_right h1 hw'
    rw [div_mul_cancel₀ _ (ne_of_gt hw')] at this
    linarith
  push_cast
  linarith

theorem dedupNumsGo_nodup : ∀ (l seen : List ℤ), (dedupNumsGo seen l).Nodup := by
  intro l
  induction l with
  | nil => intro seen; simp [dedupNumsGo]
  | cons x xs ih =>
    intro seen
    unfold dedupNumsGo
    by_cases hc : seen.contains x = true
    · rw [if_pos hc]; exact ih seen
    · rw [if_neg hc]
      refine List.Nodup.cons ?_ (ih _)
      intro hx
      have := (mem_dedupNumsGo xs (x :: seen) x).mp hx
      exact this.2 (List.mem_cons_self _ _)

theorem dedupNums_nodup (l : List ℤ) : (dedupNums l).Nodup :=
  dedupNumsGo_nodup l []

theorem mapGet?_of_mem_nodup (d : List (ℤ × α)) (e : ℤ × α) (he : e ∈ d)
    (hnd : (keysOf d).Nodup) : mapGet? d e.1 = some e.2 := by
  induction d with
  | nil => simp at he
  | cons x xs ih =>
    obtain ⟨hx, hxs⟩ := List.nodup_cons.mp hnd
    rcases List.mem_cons.mp he with rfl | he'
    · unfold mapGet?
      rw [List.find?_cons_of_pos _ (by simp)]
      rfl
    · have hne : x.1 ≠ e.1 := by
        intro hx1
        refine hx ?_
        show x.1 ∈ List.map (fun e => e.1) xs
        rw [hx1]
        exact List.mem_map.mpr ⟨e, he', rfl⟩
      unfold mapGet?
      rw [List.find?_cons_of_neg _ (by simp only [beq_iff_eq]; exact hne)]
      exact ih he' hxs

theorem mapGet?_entry_of_some (d : List (ℤ × α)) (k : ℤ) (v : α)
    (h : mapGet? d k = some v) : ∃ e ∈ d, e.2 = v := by
  unfold mapGet? at h
  cases hf : d.find? (fun e => e.1 == k) with
  | none => rw [hf] at h; cases h
  | some e =>
    rw [hf] at h
    exact ⟨e, List.mem_of_find?_eq_some hf, Option.some.inj h⟩

theorem mem_mapSet (d : List (ℤ × α)) (k : ℤ) (v : α) (x : ℤ × α)
    (h : x ∈ mapSet d k v) : x ∈ d ∨ x.2 = v := by
  unfold mapSet at h
  obtain ⟨e, he, hx⟩ := List.mem_map.mp h
  by_cases hek : (e.1 == k) = true
  · rw [if_pos hek] at hx
    right
    rw [← hx]
  · rw [if_neg hek] at hx
    left
    rw [← hx]
    exact he

theorem pyMax_zero_nonneg (x : ℚ) : 0 ≤ pyMax 0 x := by
  unfold pyMax
  split_ifs with h
  · exact le_of_lt h
  · exact le_refl 0

theorem tcIdleCumGo_keys (pattern : String → Bool) (base gapThr : ℚ) :
    ∀ (acts : List Action) (st st' : CumState),
    tcIdleCumGo pattern base gapThr st acts = .ok st' →
    keysOf st'.incs = keysOf st.incs := by
  intro acts
  induction acts with
  | nil =>
    intro st st' h
    cases h
    rfl
  | cons act rest ih =>
    intro st st' h
    unfold tcIdleCumGo at h
    cases hprod : isProdEvent act.typeName with
    | false =>
      rw [hprod] at h
      simp only [Bool.not_false, if_true] at h
      exact ih st st' h
    | true =>
      rw [hprod] at h
      cases hmatch : payloadMatches act.payload pattern with
      | false =>
        rw [hmatch] at h
        simp only [Bool.not_true, Bool.not_false, Bool.false_eq_true,
          if_false, if_true] at h
        exact ih st st' h
      | true =>
        rw [hmatch] at h
        simp only [Bool.not_true, Bool.false_eq_true, if_false] at h
        cases hp : act.player with
        | none => rw [hp] at h; exact ih st st' h
        | some p =>
          rw [hp] at h
          dsimp only at h
          cases hg : mapGet? st.last p.number with
          | none => rw [hg] at h; cases h
          | some lastv =>
            rw [hg] at h
            cases lastv with
            | none =>
              dsimp only at h
              exact ih ⟨st.incs, mapSet st.last p.number (some act.timestamp)⟩ st' h
            | some lt =>
              dsimp only at h
              by_cases hgap : act.timestamp - lt > gapThr
              · rw [if_pos hgap] at h
                cases hgi : mapGet? st.incs p.number with
                | none => rw [hgi] at h; cases h
                | some pairs =>
                  rw [hgi] at h
                  have := ih _ st' h
                  rw [this]
                  exact keysOf_mapSet _ _ _
              · rw [if_neg hgap] at h
                exact ih ⟨st.incs, mapSet st.last p.number (some act.timestamp)⟩ st' h

theorem tcIdleCumGo_incs_nonneg (pattern : String → Bool) (base gapThr : ℚ) :
    ∀ (acts : List Action) (st st' : CumState),
    tcIdleCumGo pattern base gapThr st acts = .ok st' →
    (∀ e ∈ st.incs, ∀ r ∈ e.2, 0 ≤ r.2) →
    ∀ e ∈ st'.incs, ∀ r ∈ e.2, 0 ≤ r.2 := by
  intro acts
  induction acts with
  | nil =>
    intro st st' h hnn
    cases h
    exact hnn
  | cons act rest ih =>
    intro st st' h hnn
    unfold tcIdleCumGo at h
    cases hprod : isProdEvent act.typeName with
    | false =>
      rw [hprod] at h
      simp only [Bool.not_false, if_true] at h
      exact ih st st' h hnn
    | true =>
      rw [hprod] at h
      cases hmatch : payloadMatches act.payload pattern with
      | false =>
        rw [hmatch] at h
        simp only [Bool.not_true, Bool.not_false, Bool.false_eq_true,
          if_false, if_true] at h
        exact ih st st' h hnn
      | true =>
        rw [hmatch] at h
        simp only [Bool.not_true, Bool.false_eq_true, if_false] at h
        cases hp : act.player with
        | none => rw [hp] at h; exact ih st st' h hnn
        | some p =>
          rw [hp] at h
          dsimp only at h
          cases hg : mapGet? st.last p.number with
          | none => rw [hg] at h; cases h
          | some lastv =>
            rw [hg] at h
            cases lastv with
            | none =>
              dsimp only at h
              exact ih _ st' h hnn
            | some lt =>
              dsimp only at h
              by_cases hgap : act.timestamp - lt > gapThr
              · rw [if_pos hgap] at h
                cases hgi : mapGet? st.incs p.number with
                | none => rw [hgi] at h; cases h
                | some pairs =>
                  rw [hgi] at h
                  refine ih _ st' h ?_
                  intro e he r hr
                  rcases mem_mapSet _ _ _ e he with he' | hval
                  · exact hnn e he' r hr
                  · obtain ⟨e0, he0, he0v⟩ :=
                      mapGet?_entry_of_some st.incs p.number pairs hgi
                    rw [hval] at hr
                    rcases List.mem_append.mp hr with hr' | hr'
                    · exact hnn e0 he0 r (by rw [he0v]; exact hr')
                    · rcases List.mem_singleton.mp hr' with rfl
                      exact pyMax_zero_nonneg _
              · rw [if_neg hgap] at h
                exact ih _ st' h hnn



/-- C5: every per-player series returned by `tc_idle_cumulative_timeseries`
is monotonically non-decreasing; every window strictly before the window
carrying the player's first idle increment (all increments land in strictly
later windows) holds 0; and every window strictly after the window of the
player's last increment holds the player's final cumulative value, through
the final window. -/
theorem tc_idle_cumulative_curve_properties (m : GameMatch)
    (pattern : String → Bool) (w : ℕ) (base gapThr : ℚ) (hw : 0 < w)
    (ts : TSeries)
    (h : tc_idle_cumulative_timeseries m pattern w base gapThr = .ok (some ts)) :
    ∀ pc ∈ ts.cols,
      (∀ i : ℕ, i + 1 < pc.2.length → pc.2.getD i 0 ≤ pc.2.getD (i + 1) 0) ∧
      (∀ i : ℕ, i < pc.2.length →
        (∀ r ∈ idleIncPairs m pattern base gapThr pc.1,
          (i : ℤ) < ⌊r.1 / (w : ℚ)⌋) →
        pc.2.getD i 0 = 0) ∧
      (∀ i : ℕ, i < pc.2.length →
        (∀ r ∈ idleIncPairs m pattern base gapThr pc.1,
          ⌊r.1 / (w : ℚ)⌋ < (i : ℤ)) →
        pc.2.getD i 0 =
          ((idleIncPairs m pattern base gapThr pc.1).map (fun r => r.2)).sum) := by
  intro pc hpc
  unfold tc_idle_cumulative_timeseries at h
  cases hgo : tcIdleCumGo pattern base gapThr
      ⟨initMap m.players [], initMap m.players none⟩ m.actions with
  | error e => rw [hgo] at h; exact absurd h (by simp [Except.map])
  | ok st =>
    rw [hgo] at h
    simp only [Except.map] at h
    have h' := Except.ok.inj h
    cases hat : st.incs.flatMap (fun e => e.2.map (fun r => r.1)) with
    | nil => rw [hat] at h'; exact absurd h' (by simp)
    | cons t0 trest =>
      rw [hat] at h'
      simp only at h'
      have hts := Option.some.inj h'
      rw [← hts] at hpc
      simp only [List.mem_filterMap] at hpc
      obtain ⟨e, he, hif⟩ := hpc
      by_cases hemp : e.2.isEmpty
      · rw [if_pos hemp] at hif; cases hif
      rw [if_neg hemp] at hif
      cases hif
      set nW := numWindows (maxList (t0 :: trest)) w with hnW
      have hkeys : keysOf st.incs =
          keysOf (initMap m.players ([] : List (ℚ × ℚ))) :=
        tcIdleCumGo_keys pattern base gapThr m.actions _ st hgo
      have hnodup : (keysOf st.incs).Nodup := by
        rw [hkeys, keysOf_initMap]
        exact dedupNums_nodup _
      have hpairs : idleIncPairs m pattern base gapThr e.1 = e.2 := by
        unfold idleIncPairs
        rw [hgo]
        dsimp only
        rw [mapGet?_of_mem_nodup st.incs e he hnodup]
        rfl
      have hnn : ∀ r ∈ e.2, 0 ≤ r.2 := by
        refine tcIdleCumGo_incs_nonneg pattern base gapThr m.actions _ st hgo
          ?_ e he
        intro e' he' r hr
        unfold initMap at he'
        obtain ⟨k, _, hk⟩ := List.mem_map.mp he'
        rw [← hk] at hr
        simp at hr
      have hlen : (cumColumn w nW e.2).length = nW := cumColumn_length w nW e.2
      refine ⟨?_, ?_, ?_⟩
      · intro i hi
        simp only [hlen] at hi
        rw [cumColumn_getD w nW e.2 i (by omega),
          cumColumn_getD w nW e.2 (i + 1) hi]
        refine sum_filter_mono e.2 _ _ ?_ hnn
        intro r hr
        simp only [decide_eq_true_eq] at hr ⊢
        refine le_trans hr ?_
        have : (i * w : ℕ) ≤ ((i + 1) * w : ℕ) :=
          Nat.mul_le_mul_right w (Nat.le_succ i)
        exact_mod_cast this
      · intro i hi hbefore
        simp only [hlen] at hi
        rw [cumColumn_getD w nW e.2 i hi]
        have hfil : e.2.filter (fun r => decide (r.1 ≤ ((i * w : ℕ) : ℚ))) = [] := by
          rw [List.filter_eq_nil_iff]
          intro r hr
          simp only [decide_eq_true_eq]
          intro hle
          have hlt := lt_of_lt_floor_div r.1 w hw i
            (hbefore r (by rw [hpairs]; exact hr))
          linarith
        rw [hfil]
        simp
      · intro i hi hafter
        simp only [hlen] at hi
        rw [cumColumn_getD w nW e.2 i hi]
        have hfil : e.2.filter (fun r => decide (r.1 ≤ ((i * w : ℕ) : ℚ))) = e.2 := by
          rw [List.filter_eq_self]
          intro r hr
          simp only [decide_eq_true_eq]
          exact le_of_floor_div_lt r.1 w hw i
            (hafter r (by rw [hpairs]; exact hr))
        rw [hfil, hpairs]

/-- Witness for C5 on `exIdleM` with window width 30: the single increment
`(100, 23)` lies beyond every displayed window, so the series `[0,0,0,0]` is
flat and the monotone part applies at the first adjacent pair. -/
theorem tc_idle_cumulative_curve_properties_witness :
    [(0 : ℚ), 0, 0, 0].getD 0 0 ≤ [(0 : ℚ), 0, 0, 0].getD 1 0 := by
  have h := tc_idle_cumulative_curve_properties exIdleM (fun _ => true) 30 25 27
    (by norm_num) ⟨[0, 30, 60, 90], [(1, [0, 0, 0, 0])]⟩
    (by with_unfolding_all decide)
  exact (h (1, [0, 0, 0, 0]) (by simp)).1 0 (by simp)





theorem histWeight_nil (w nW j : ℕ) : histWeight w nW j [] = 0 := rfl

theorem histWeight_cons (w nW j : ℕ) (r : ℚ × ℚ) (rest : List (ℚ × ℚ)) :
    histWeight w nW j (r :: rest) =
      (if inBin w nW j r.1 then r.2 else 0) + histWeight w nW j rest := by
  unfold histWeight
  rw [List.filter_cons]
  by_cases hr : inBin w nW j r.1 = true
  · rw [if_pos hr, if_pos hr]
    simp only [List.foldl_cons, zero_add]
    rw [foldl_add_init]
  · rw [if_neg hr, if_neg hr]
    simp

theorem map_add_getD (l : List ℚ) (c : ℚ) (i : ℕ) (h : i < l.length) :
    (l.map (fun b => b + c)).getD i 0 = l.getD i 0 + c := by
  rw [List.getD_eq_getElem?_getD, List.getD_eq_getElem?_getD,
    List.getElem?_map]
  rw [List.getElem?_eq_getElem h]
  rfl

theorem cumsumFrom_getD_sum :
    ∀ (l : List ℚ) (a : ℚ) (i : ℕ), i < l.length →
      (cumsumFrom a l).getD i 0 =
        a + ((List.range (i + 1)).map (fun j => l.getD j 0)).sum := by
  intro l
  induction l with
  | nil => intro a i h; simp at h
  | cons x xs ih =>
    intro a i h
    cases i with
    | zero => simp [cumsumFrom, List.range_succ]
    | succ j =>
      have hj : j < xs.length := by simpa using Nat.lt_of_succ_lt_succ h
      have hrange : List.range (j + 2) = 0 :: (List.range (j + 1)).map Nat.succ :=
        List.range_succ_eq_map (j + 1)
      rw [hrange]
      simp only [cumsumFrom, List.getD_cons_succ, List.map_cons, List.sum_cons,
        List.map_map, List.getD_cons_zero]
      rw [ih (a + x) j hj]
      have hmapeq : (List.range (j + 1)).map ((fun k => (x :: xs).getD k 0) ∘ Nat.succ) =
          (List.range (j + 1)).map (fun k => xs.getD k 0) := by
        refine List.map_congr_left ?_
        intro k _
        rfl
      rw [hmapeq]
      ring

theorem mapGet?_keyed_map (keys : List ℤ) (f : ℤ → List ℚ) (pid : ℤ) :
    mapGet? (keys.map (fun q => (q, f q))) pid =
      if pid ∈ keys then some (f pid) else none := by
  induction keys with
  | nil => simp [mapGet?]
  | cons k ks ih =>
    by_cases hk : k = pid
    · subst hk
      unfold mapGet?
      rw [List.map_cons, List.find?_cons_of_pos _ (by simp)]
      simp
    · unfold mapGet? at ih ⊢
      rw [List.map_cons, List.find?_cons_of_neg _ (by simp [beq_iff_eq, hk])]
      rw [ih]
      by_cases hmem : pid ∈ ks
      · rw [if_pos hmem, if_pos (List.mem_cons_of_mem _ hmem)]
      · rw [if_neg hmem, if_neg ?_]
        intro hc
        rcases List.mem_cons.mp hc with h | h
        · exact hk h.symm
        · exact hmem h

theorem sum_map_neg_of_pointwise (l : List ℕ) (f g : ℕ → ℚ)
    (h : ∀ j ∈ l, f j = -g j) : (l.map f).sum = -((l.map g).sum) := by
  induction l with
  | nil => simp
  | cons a rest ih =>
    simp only [List.map_cons, List.sum_cons]
    rw [h a (List.mem_cons_self _ _),
      ih (fun j hj => h j (List.mem_cons_of_mem _ hj))]
    ring

theorem buildTS_of_ne_nil (w : ℕ) (rows : List (ℚ × ℤ × ℚ))
    (post : List ℚ → List ℚ) (h : rows ≠ []) :
    buildTS w rows post = some
      { index := windowStarts (numWindows (maxList (rows.map (fun r => r.1))) w) w
        cols := (dedupNums (rows.map (fun r => r.2.1))).map (fun pid =>
          (pid, post (histogram w (numWindows (maxList (rows.map (fun r => r.1))) w)
            ((rows.filter (fun r => r.2.1 == pid)).map (fun r => (r.1, r.2.2)))))) } := by
  cases rows with
  | nil => exact absurd rfl h
  | cons r rest => rfl

theorem balance_spend_weight (idx : ℕ) (pid : ℤ) (w nW j : ℕ) :
    ∀ rows : List (ℚ × ℤ × ResourceCost),
    (∀ r ∈ rows, deltaComp r.2.2 idx ≤ 0) →
    histWeight w nW j
      (((rows.map (fun r => (r.1, r.2.1, ((deltaComp r.2.2 idx : ℤ) : ℚ)))).filter
        (fun r => r.2.1 == pid)).map (fun r => (r.1, r.2.2))) =
    - histWeight w nW j
      (((rows.filterMap (fun r =>
          if deltaComp r.2.2 idx < 0 then
            some (r.1, r.2.1, ((-deltaComp r.2.2 idx : ℤ) : ℚ))
          else none)).filter (fun r => r.2.1 == pid)).map (fun r => (r.1, r.2.2))) := by
  intro rows
  induction rows with
  | nil => intro _; simp [histWeight_nil]
  | cons r rest ih =>
    intro hle
    have hler : deltaComp r.2.2 idx ≤ 0 := hle r (List.mem_cons_self _ _)
    have ihr := ih (fun a ha => hle a (List.mem_cons_of_mem _ ha))
    simp only [List.map_cons, List.filterMap_cons]
    by_cases hpid : (r.2.1 == pid) = true
    · rw [List.filter_cons, if_pos hpid]
      by_cases hneg : deltaComp r.2.2 idx < 0
      · rw [if_pos hneg, List.filter_cons, if_pos hpid]
        simp only [List.map_cons]
        rw [histWeight_cons, histWeight_cons, ihr]
        have hcast : ((deltaComp r.2.2 idx : ℤ) : ℚ) =
            -((-deltaComp r.2.2 idx : ℤ) : ℚ) := by push_cast; ring
        by_cases hbin : inBin w nW j r.1 = true
        · rw [if_pos hbin, if_pos hbin]
          rw [hcast]
          ring
        · rw [if_neg hbin, if_neg hbin]
          ring
      · rw [if_neg hneg]
        simp only [List.map_cons]
        rw [histWeight_cons, ihr]
        have hzero : deltaComp r.2.2 idx = 0 := le_antisymm hler (not_lt.mp hneg)
        have : ((deltaComp r.2.2 idx : ℤ) : ℚ) = 0 := by rw [hzero]; norm_num
        rw [this]
        simp
    · rw [List.filter_cons, if_neg hpid]
      by_cases hneg : deltaComp r.2.2 idx < 0
      · rw [if_pos hneg, List.filter_cons, if_neg hpid]
        exact ihr
      · rw [if_neg hneg]
        exact ihr

/-- C3 (amended): for a match with only production/build/research actions
(no market BUY/SELL), whose resolved per-action deltas are non-positive in
the chosen resource (production amounts are not negative), and whose latest
delta-contributing timestamp coincides with the latest spend timestamp (so
both series are built over the same window grid), the balance value at every
window equals `start_at` minus the cumulative spend up to and including that
window. -/
theorem balance_equals_start_minus_cumspend (m : GameMatch) (resource : String)
    (w : ℕ) (startAt : ℚ) (idx : ℕ) (_hw : 0 < w)
    (hidx : resIdx (pyLower resource) = some idx)
    (_htypes : ∀ act ∈ m.actions, act.typeName = "DE_QUEUE" ∨
      act.typeName = "QUEUE" ∨ act.typeName = "ORDER" ∨
      act.typeName = "TRAIN" ∨ act.typeName = "CREATE" ∨
      act.typeName = "BUILD" ∨ act.typeName = "RESEARCH")
    (hneg : ∀ r ∈ deltaRows m, deltaComp r.2.2 idx ≤ 0)
    (hgrid : spendRows m idx ≠ [] →
      maxList ((balanceRows m idx).map (fun r => r.1)) =
        maxList ((spendRows m idx).map (fun r => r.1)))
    (ts : TSeries)
    (h : resource_balance_timeseries m resource w startAt = .ok (some ts)) :
    ∀ pc ∈ ts.cols, ∀ i : ℕ, i < pc.2.length →
      pc.2.getD i 0 =
        startAt - spendCumAt (resource_spend_timeseries m resource w) pc.1 i := by
  have hbal : buildTS w (balanceRows m idx)
      (fun col => (cumsum col).map (fun b => b + startAt)) = some ts := by
    have heq : resource_balance_timeseries m resource w startAt =
        .ok (buildTS w (balanceRows m idx)
          (fun col => (cumsum col).map (fun b => b + startAt))) := by
      unfold resource_balance_timeseries
      rw [hidx]
    rw [heq] at h
    exact Except.ok.inj h
  intro pc hpc i hi
  obtain ⟨pid, hpid⟩ := buildTS_cols_mem w _ _ ts hbal pc hpc
  set nWb := numWindows (maxList ((balanceRows m idx).map (fun r => r.1))) w
    with hnWb
  set histB := histogram w nWb
    (((balanceRows m idx).filter (fun r => r.2.1 == pid)).map
      (fun r => (r.1, r.2.2))) with hhistB
  have hfst : pc.1 = pid := by rw [hpid]
  have hcol : pc.2 = (cumsum histB).map (fun b => b + startAt) := by rw [hpid]
  have hiW : i < nWb := by
    rw [hcol] at hi
    rw [List.length_map, cumsum_length, hhistB, histogram_length] at hi
    exact hi
  have hv1 : pc.2.getD i 0 = (cumsum histB).getD i 0 + startAt := by
    rw [hcol]
    exact map_add_getD _ _ _
      (by rw [cumsum_length, hhistB, histogram_length]; exact hiW)
  have hv2 : (cumsum histB).getD i 0 =
      ((List.range (i + 1)).map (fun j => histB.getD j 0)).sum := by
    have := cumsumFrom_getD_sum histB 0 i
      (by rw [hhistB, histogram_length]; exact hiW)
    simpa [cumsum] using this
  have hpoint : ∀ j ∈ List.range (i + 1), histB.getD j 0 =
      - histWeight w nWb j (((spendRows m idx).filter
        (fun r => r.2.1 == pid)).map (fun r => (r.1, r.2.2))) := by
    intro j hj
    have hjW : j < nWb := by
      have := List.mem_range.mp hj
      omega
    rw [hhistB, histogram_getD _ _ _ j hjW]
    exact balance_spend_weight idx pid w nWb j (deltaRows m) hneg
  rw [hfst, hv1, hv2]
  by_cases hsp : spendRows m idx = []
  · have hres : resource_spend_timeseries m resource w = .ok none := by
      unfold resource_spend_timeseries
      rw [hidx]
      show Except.ok (buildTS w (spendRows m idx) (fun col => col)) =
        Except.ok none
      rw [hsp]
      rfl
    rw [hres]
    have hzero : ∀ x ∈ (List.range (i + 1)).map (fun j => histB.getD j 0),
        x = 0 := by
      intro x hx
      obtain ⟨j, hj, hjx⟩ := List.mem_map.mp hx
      rw [← hjx, hpoint j hj, hsp]
      simp [histWeight_nil]
    rw [List.sum_eq_zero hzero]
    show (0 : ℚ) + startAt = startAt - spendCumAt (.ok none) pid i
    unfold spendCumAt
    ring
  · have hnWs : numWindows (maxList ((spendRows m idx).map (fun r => r.1))) w
        = nWb := by rw [hnWb, hgrid hsp]
    have hres : resource_spend_timeseries m resource w =
        .ok (buildTS w (spendRows m idx) (fun col => col)) := by
      unfold resource_spend_timeseries
      rw [hidx]
    rw [buildTS_of_ne_nil w _ _ hsp] at hres
    rw [hres]
    rw [hnWs] at hres ⊢
    set tss : TSeries :=
      { index := windowStarts nWb w
        cols := (dedupNums ((spendRows m idx).map (fun r => r.2.1))).map
          (fun q => (q, histogram w nWb (((spendRows m idx).filter
            (fun r => r.2.1 == q)).map (fun r => (r.1, r.2.2))))) } with htss
    have hcum : spendCumAt (.ok (some tss)) pid i =
        ((List.range (i + 1)).map (fun j => colAt tss pid j)).sum := rfl
    have hcolAt : ∀ j : ℕ, colAt tss pid j =
        if pid ∈ dedupNums ((spendRows m idx).map (fun r => r.2.1)) then
          (histogram w nWb (((spendRows m idx).filter
            (fun r => r.2.1 == pid)).map (fun r => (r.1, r.2.2)))).getD j 0
        else 0 := by
      intro j
      unfold colAt
      rw [htss]
      rw [mapGet?_keyed_map]
      by_cases hmem : pid ∈ dedupNums ((spendRows m idx).map (fun r => r.2.1))
      · rw [if_pos hmem, if_pos hmem]
      · rw [if_neg hmem, if_neg hmem]
    by_cases hmem : pid ∈ dedupNums ((spendRows m idx).map (fun r => r.2.1))
    · have hsum : ((List.range (i + 1)).map (fun j => histB.getD j 0)).sum =
          -(((List.range (i + 1)).map (fun j => colAt tss pid j)).sum) := by
        refine sum_map_neg_of_pointwise _ _ _ ?_
        intro j hj
        rw [hpoint j hj, hcolAt j, if_pos hmem]
        have hjW : j < nWb := by
          have := List.mem_range.mp hj
          omega
        rw [histogram_getD _ _ _ j hjW]
      rw [hsum, hcum]
      ring
    · have hnorow : (spendRows m idx).filter (fun r => r.2.1 == pid) = [] := by
        rw [List.filter_eq_nil_iff]
        intro r hr hbeq
        refine hmem ((mem_dedupNums _ _).mpr ?_)
        refine List.mem_map.mpr ⟨r, hr, ?_⟩
        simpa using hbeq
      have hzero : ∀ x ∈ (List.range (i + 1)).map (fun j => histB.getD j 0),
          x = 0 := by
        intro x hx
        obtain ⟨j, hj, hjx⟩ := List.mem_map.mp hx
        rw [← hjx, hpoint j hj, hnorow]
        simp [histWeight_nil]
      have hzero2 : ((List.range (i + 1)).map (fun j => colAt tss pid j)).sum
          = 0 := by
        refine List.sum_eq_zero ?_
        intro x hx
        obtain ⟨j, hj, hjx⟩ := List.mem_map.mp hx
        rw [← hjx, hcolAt j, if_neg hmem]
      rw [List.sum_eq_zero hzero, hcum, hzero2]
      ring

/-- Witness for C3 (amended) on `exSpend1M` with `start_at = 200`: the
balance value 150 at window 0 equals 200 minus the 50-food cumulative
spend. -/
theorem balance_equals_start_minus_cumspend_witness :
    [(150 : ℚ)].getD 0 0 =
      200 - spendCumAt (resource_spend_timeseries exSpend1M "food" 10) 1 0 := by
  have h := balance_equals_start_minus_cumspend exSpend1M "food" 10 200 0
    (by norm_num) (by with_unfolding_all decide)
    (by with_unfolding_all decide)
    (by with_unfolding_all decide)
    (by with_unfolding_all decide)
    ⟨[0], [(1, [150])]⟩ (by with_unfolding_all decide)
  exact h (1, [150]) (by simp) 0 (by simp)

end Aoe2Stat
